import Mathlib

/-!
Verification development for the vaultxfer synchronization engine
(`vaultxfer/transfer.py`).  The Python source is shallowly embedded:

* POSIX path helpers (`os.path.basename`, `os.path.join`, `os.path.normpath`,
  `os.path.relpath`) are modelled over `String` / `List Char`;
* `fnmatch.fnmatch` is modelled as a shell-glob matcher (`*`, `?`, bracket
  classes) driven by a fuel counter that strictly dominates the size of the
  problem, so the function is structural and computable;
* the local and the remote file stores are finite maps from path to byte
  content (`FS`); transfer primitives (`sftp.put`, `sftp.get`, `sftp.rename`,
  `sftp.remove`, `os.replace`, `os.remove`) act on such maps and take an
  injected outcome describing whether the underlying I/O call succeeds,
  fails, or (for whole-file copies) fails midway leaving a partial file;
* exceptions are modelled by the inductive `PyErr`; each Python
  `try/except` ladder becomes an explicit `match` on the error value;
* directories are not part of the file maps: every directory-creation or
  directory-probe step of the source is best-effort and swallowed
  (`transfer.py` lines 29-42, 96-98, 162-171), so it has no effect on the
  modelled stores; `os.makedirs` failure for downloads is kept because its
  exception escapes into the download handler ladder.
-/

/-! ## Path helpers (POSIX semantics of `os.path`) -/

/-- Split a character list at every occurrence of `sep` (like
`str.split(sep)` in Python: `n` separators yield `n+1` pieces). -/
def splitChar (sep : Char) : List Char → List (List Char)
  | [] => [[]]
  | c :: cs =>
    let r := splitChar sep cs
    if c = sep then [] :: r
    else
      match r with
      | [] => [[c]]
      | h :: t => (c :: h) :: t

/-- Components of a path, split on `/`. -/
def pathComps (s : String) : List String :=
  (splitChar '/' s.data).map (fun l => String.mk l)

/-- Join a list of strings with `sep` between them. -/
def joinWith (sep : String) : List String → String
  | [] => ""
  | [x] => x
  | x :: xs => x ++ sep ++ joinWith sep xs

/-- `strStartsWith s t` holds when `t` is a leading piece of `s`. -/
def strStartsWith (s t : String) : Bool :=
  t.data.isPrefixOf s.data

/-- `strEndsWith s t` holds when `t` is a trailing piece of `s`. -/
def strEndsWith (s t : String) : Bool :=
  t.data.reverse.isPrefixOf s.data.reverse

/-- `os.path.basename`: everything after the last `/` (the whole string if
there is no `/`). -/
def basename (s : String) : String :=
  String.mk ((s.data.reverse.takeWhile (fun c => c ≠ '/')).reverse)

/-- `os.path.dirname`: everything before the last `/`, with trailing
separators stripped unless the result is the root. -/
def dirname (s : String) : String :=
  let comps := pathComps s
  let head := joinWith "/" comps.dropLast
  if comps.length ≤ 1 then ""
  else if head = "" ∧ strStartsWith s "/" then "/"
  else head

/-- Two-argument `os.path.join` for POSIX paths. -/
def pjoin (a b : String) : String :=
  if strStartsWith b "/" then b
  else if a = "" ∨ strEndsWith a "/" then a ++ b
  else a ++ "/" ++ b

/-- One step of `os.path.normpath`'s component normalisation: drop empty
and `.` components, resolve `..` against the accumulated stack (kept in
reverse order). -/
def normStep (isAbs : Bool) (acc : List String) (comp : String) : List String :=
  if comp = "" ∨ comp = "." then acc
  else if comp = ".." then
    match acc with
    | [] => if isAbs then [] else [".."]
    | top :: rest => if top = ".." then comp :: acc else rest
  else comp :: acc

/-- `os.path.normpath` for POSIX paths (multiple leading slashes are
collapsed to one, which differs from CPython only in the doubled-slash
corner case). -/
def normpath (p : String) : String :=
  let isAbs := strStartsWith p "/"
  let comps := (pathComps p).foldl (normStep isAbs) []
  let body := joinWith "/" comps.reverse
  if isAbs then "/" ++ body
  else if body = "" then "." else body

/-- `os.path.abspath` with the working directory modelled as `/`.  The
working directory cancels out of every `relpath` comparison, so this choice
is faithful for all inputs that do not climb above the working directory. -/
def abspath (p : String) : String :=
  if strStartsWith p "/" then normpath p else normpath ("/" ++ p)

/-- Length of the longest common leading run of two component lists. -/
def commonLen : List String → List String → Nat
  | a :: as, b :: bs => if a = b then commonLen as bs + 1 else 0
  | _, _ => 0

/-- `os.path.relpath path start` (POSIX `posixpath.relpath`). -/
def relpath (path start : String) : String :=
  let pl := (pathComps (abspath path)).filter (fun c => c ≠ "")
  let sl := (pathComps (abspath start)).filter (fun c => c ≠ "")
  let i := commonLen sl pl
  let rl := List.replicate (sl.length - i) ".." ++ pl.drop i
  if rl = [] then "." else joinWith "/" rl

/-- `remote_dir.rstrip("/")`. -/
def rstripSlashes (s : String) : String :=
  String.mk ((s.data.reverse.dropWhile (fun c => c = '/')).reverse)

/-! ## `fnmatch.fnmatch` (shell-glob matching)

Bracket classes follow `fnmatch.translate`: an optional leading `!`
negates, a `]` right after the opening (or after `!`) is literal, and a
missing closing `]` makes the `[` literal.  The matcher runs on fuel
`pattern.length + name.length + 1`; every recursive call strictly decreases
`pattern.length + name.length`, so this fuel is never exhausted. -/

/-- Scan a bracket class up to the closing `]`; returns the class body and
the remainder of the pattern. -/
def scanClass : List Char → List Char → Option (List Char × List Char)
  | [], _ => none
  | ']' :: rest, acc => some (acc.reverse, rest)
  | c :: rest, acc => scanClass rest (c :: acc)

/-- Parse the part of a pattern following `[` into
(negated, class body, rest). -/
def parseClass (ps : List Char) : Option (Bool × List Char × List Char) :=
  match ps with
  | '!' :: ']' :: rest2 => (scanClass rest2 [']']).map (fun r => (true, r.1, r.2))
  | '!' :: rest => (scanClass rest []).map (fun r => (true, r.1, r.2))
  | ']' :: rest => (scanClass rest [']']).map (fun r => (false, r.1, r.2))
  | _ => (scanClass ps []).map (fun r => (false, r.1, r.2))

/-- Membership of a character in a bracket-class body, with `a-z` ranges. -/
def charInClass : List Char → Char → Bool
  | [], _ => false
  | a :: '-' :: b :: rest, c => (a ≤ c ∧ c ≤ b : Bool) || charInClass rest c
  | a :: rest, c => (a = c : Bool) || charInClass rest c

/-- Fuel-driven glob matcher core: `fnGo fuel pattern name`. -/
def fnGo : Nat → List Char → List Char → Bool
  | 0, _, _ => false
  | _ + 1, [], s => s.isEmpty
  | fuel + 1, '*' :: ps, s =>
    fnGo fuel ps s ||
      (match s with
       | [] => false
       | _ :: cs => fnGo fuel ('*' :: ps) cs)
  | fuel + 1, '?' :: ps, s =>
    (match s with
     | [] => false
     | _ :: cs => fnGo fuel ps cs)
  | fuel + 1, '[' :: ps, s =>
    (match s with
     | [] => false
     | c :: cs =>
       match parseClass ps with
       | none => (c = '[' : Bool) && fnGo fuel ps cs
       | some (neg, cls, rest) => (charInClass cls c ≠ neg : Bool) && fnGo fuel rest cs)
  | fuel + 1, a :: ps, s =>
    (match s with
     | [] => false
     | c :: cs => (a = c : Bool) && fnGo fuel ps cs)

/-- `fnmatch.fnmatch name pat` (POSIX `os.path.normcase` is the
identity). -/
def fnmatch (name pat : String) : Bool :=
  fnGo (pat.data.length + name.data.length + 1) pat.data name.data

/-! ## File stores -/

/-- A file store: a finite association of paths to byte contents. -/
abbrev FS := List (String × List Nat)

/-- Content of a path, if present (`List.lookup` finds the most recent
binding, which `fsSet` places in front). -/
def fsGet (fs : FS) (p : String) : Option (List Nat) :=
  List.lookup p fs

/-- Write (create or overwrite) a path. -/
def fsSet (fs : FS) (p : String) (c : List Nat) : FS :=
  (p, c) :: fs.filter (fun e => !(e.1 == p))

/-- Delete a path. -/
def fsDel (fs : FS) (p : String) : FS :=
  fs.filter (fun e => !(e.1 == p))

theorem fsGet_filter_ne (fs : FS) (p q : String) (h : q ≠ p) :
    fsGet (fs.filter (fun e => !(e.1 == p))) q = fsGet fs q := by
  induction fs with
  | nil => rfl
  | cons e rest ih =>
    obtain ⟨k, v⟩ := e
    by_cases hp : k = p
    · have h1 : (k == p) = true := by simp [hp]
      have h2 : (q == k) = false := by simp [hp]; exact h
      simp only [List.filter, h1, Bool.not_true, fsGet, List.lookup, h2] at ih ⊢
      exact ih
    · have h1 : (k == p) = false := by simp [hp]
      by_cases hq : q = k
      · simp [List.filter, h1, fsGet, List.lookup, hq]
      · have h2 : (q == k) = false := by simp [hq]
        simp only [List.filter, h1, Bool.not_false, fsGet, List.lookup, h2] at ih ⊢
        exact ih

theorem fsGet_set_self (fs : FS) (p : String) (c : List Nat) :
    fsGet (fsSet fs p c) p = some c := by
  simp [fsGet, fsSet, List.lookup]

theorem fsGet_set_ne (fs : FS) (p q : String) (c : List Nat) (h : q ≠ p) :
    fsGet (fsSet fs p c) q = fsGet fs q := by
  have hqp : (q == p) = false := by simp [h]
  have h2 := fsGet_filter_ne fs p q h
  simp only [fsSet, fsGet, List.lookup, hqp] at h2 ⊢
  exact h2

theorem fsGet_del_self (fs : FS) (p : String) :
    fsGet (fsDel fs p) p = none := by
  induction fs with
  | nil => rfl
  | cons e rest ih =>
    obtain ⟨k, v⟩ := e
    by_cases hp : k = p
    · have h1 : (k == p) = true := by simp [hp]
      simp only [fsDel, List.filter, h1, Bool.not_true] at ih ⊢
      exact ih
    · have h1 : (k == p) = false := by simp [hp]
      have h2 : (p == k) = false := by simp; exact fun hh => hp hh.symm
      simp only [fsDel, List.filter, h1, Bool.not_false, fsGet, List.lookup, h2] at ih ⊢
      exact ih

theorem fsGet_del_ne (fs : FS) (p q : String) (h : q ≠ p) :
    fsGet (fsDel fs p) q = fsGet fs q :=
  fsGet_filter_ne fs p q h

/-! ## String inequality helpers -/

theorem strData_append (s t : String) : (s ++ t).data = s.data ++ t.data := by
  cases s; cases t; rfl

theorem strAppend_ne (s t : String) (h : t.data ≠ []) : s ++ t ≠ s := by
  intro heq
  have hd : (s ++ t).data = s.data := congrArg String.data heq
  rw [strData_append] at hd
  have hlen : s.data.length + t.data.length = s.data.length := by
    have := congrArg List.length hd
    simpa [List.length_append] using this
  have : t.data.length = 0 := by omega
  exact h (List.length_eq_zero.mp this)

theorem strAppend_ne_of_ne (s t u : String) (h : t.data.length ≠ u.data.length) :
    s ++ t ≠ s ++ u := by
  intro heq
  have hd := congrArg String.data heq
  rw [strData_append, strData_append] at hd
  have := congrArg List.length hd
  simp [List.length_append] at this
  exact h this

/-! ## Exceptions and injected I/O outcomes -/

/-- Python exception values as they matter to `transfer.py`'s handlers:
`fnfE` is `FileNotFoundError`, `permE` is `PermissionError`, `ioE` is a
plain `IOError`, `genE` any other exception (tagged to keep instances
apart), `nameE` is `NameError`, `aggE` the aggregated `RuntimeError`
raised at line 69, and `dlWrapE` the `RuntimeError` raised at line 114. -/
inductive PyErr where
  | fnfE
  | permE
  | ioE
  | genE (tag : Nat)
  | nameE
  | aggE (renameErr fallbackErr : PyErr)
  | dlWrapE (e : PyErr)
deriving DecidableEq

/-- Injected outcome of a single-shot I/O call (`rename`, `remove`,
`mkdir`, `makedirs`, `replace`). -/
inductive Outcome where
  | ok
  | fail (e : PyErr)
deriving DecidableEq

/-- Injected outcome of a whole-file copy (`sftp.put` / `sftp.get`):
it can also fail midway, having written the first `k` bytes of the
source to its destination. -/
inductive PutOutcome where
  | ok
  | fail (e : PyErr)
  | failPartial (e : PyErr) (k : Nat)
deriving DecidableEq

/-- The error carried by a failing `PutOutcome`, if any. -/
def PutOutcome.errOf : PutOutcome → Option PyErr
  | .ok => none
  | .fail e => some e
  | .failPartial e _ => some e

/-- Whole-file copy of `src` to `dst` inside `fs` (`sftp.put` with the
local content `src`, and symmetrically `sftp.get`).  A missing source
raises `FileNotFoundError`; a midway failure leaves a partial file at the
destination. -/
def runPut (o : PutOutcome) (src : Option (List Nat)) (fs : FS) (dst : String) :
    FS × Option PyErr :=
  match src with
  | none => (fs, some .fnfE)
  | some c =>
    match o with
    | .ok => (fsSet fs dst c, none)
    | .fail e => (fs, some e)
    | .failPartial e k => (fsSet fs dst (c.take k), some e)

/-- `sftp.rename src dst` / `os.replace src dst`: moves the file at `src`
onto `dst`; a missing source raises an `IOError`. -/
def runRename (o : Outcome) (fs : FS) (src dst : String) : FS × Option PyErr :=
  match fsGet fs src with
  | none => (fs, some .ioE)
  | some c =>
    match o with
    | .ok => (fsDel (fsSet fs dst c) src, none)
    | .fail e => (fs, some e)

/-- `sftp.remove p` / `os.remove p`: a missing target raises
`FileNotFoundError`. -/
def runRemove (o : Outcome) (fs : FS) (p : String) : FS × Option PyErr :=
  match fsGet fs p with
  | none => (fs, some .fnfE)
  | some _ =>
    match o with
    | .ok => (fsDel fs p, none)
    | .fail e => (fs, some e)

/-- `sftp.get remotePath localTmp`: reads the remote store, writes the
local store. -/
def runGet (o : PutOutcome) (rfs lfs : FS) (src dst : String) : FS × Option PyErr :=
  runPut o (fsGet rfs src) lfs dst

/-! ## User-facing output lines -/

/-- The `print` lines of `transfer.py`, kept structured. -/
inductive Report where
  | uploaded (lp rp : String)
  | permDeniedUp (rp : String)
  | localNotFound (lp : String)
  | uploadFailed (lp rp : String) (e : PyErr)
  | downloaded (rp lp : String)
  | remoteNotFound (rp : String)
  | permDeniedDl (rp : String)
  | downloadFailed (rp lp : String) (e : PyErr)
  | conflictNote (rel : String)
deriving DecidableEq

/-! ## `atomic_upload` (transfer.py lines 19-81) -/

/-- The primitive remote-side calls `atomic_upload` makes, in order. -/
inductive UpEv where
  | putTmpCall
  | renameCall
  | removeTargetCall
  | renameRetryCall
  | removeTmpCall
  | putDirectCall
deriving DecidableEq

/-- Injected outcomes for each call site of `atomic_upload`:
`put1` line 44, `rename1` line 47, `removeTarget` line 50, `rename2`
line 55, `removeTmpPre` line 59, `putDirect` line 62, `removeTmpAgg`
line 66, `removeTmpOuter` line 78. -/
structure UpFaults where
  put1 : PutOutcome
  rename1 : Outcome
  removeTarget : Outcome
  rename2 : Outcome
  removeTmpPre : Outcome
  putDirect : PutOutcome
  removeTmpAgg : Outcome
  removeTmpOuter : Outcome
deriving DecidableEq

/-- Result of `atomic_upload`: the final remote store, every intermediate
remote store (initial store first, then one entry per primitive call),
the calls made, the lines printed, what propagates to the caller, and
which handler branches ran. -/
structure UpResult where
  rfs : FS
  trace : List FS
  events : List UpEv
  reported : List Report
  raised : Option PyErr
  usedDirectPut : Bool
  enteredRenameHandler : Bool
deriving DecidableEq

/-- Target-path fixup of lines 20-24: a directory-like target gets the
source basename appended; a still-empty basename gets `.tmp` appended. -/
def resolveRemotePath (lp rp : String) : String :=
  let rp1 := if strEndsWith rp "/" || (basename rp == "") then pjoin rp (basename lp) else rp
  if basename rp1 == "" then rp1 ++ ".tmp" else rp1

/-- The `except` ladder of lines 72-81: `PermissionError` and
`FileNotFoundError` only print; anything else removes the temporary file
best-effort and prints.  No branch re-raises. -/
def upOuter (f : UpFaults) (st : FS) (tr : List FS) (evs : List UpEv)
    (lp rp tmp : String) (e : PyErr) (udp erh : Bool) : UpResult :=
  match e with
  | .permE => ⟨st, tr, evs, [.permDeniedUp rp], none, udp, erh⟩
  | .fnfE => ⟨st, tr, evs, [.localNotFound lp], none, udp, erh⟩
  | e =>
    let r := runRemove f.removeTmpOuter st tmp
    ⟨r.1, tr ++ [r.1], evs ++ [UpEv.removeTmpCall], [.uploadFailed lp rp e], none, udp, erh⟩

/-- `atomic_upload(sftp, local_path, remote_path)`.  The
ancestor-directory probe and best-effort creation of lines 29-42 touch no
file, and every exception inside it is swallowed, so it has no effect on
the model. -/
def atomic_upload (f : UpFaults) (lfs rfs0 : FS) (lp rp0 : String) : UpResult :=
  let rp := resolveRemotePath lp rp0
  let tmp := rp ++ ".tmp"
  let s1 := runPut f.put1 (fsGet lfs lp) rfs0 tmp
  match s1.2 with
  | some e => upOuter f s1.1 [rfs0, s1.1] [UpEv.putTmpCall] lp rp tmp e false false
  | none =>
    let s2 := runRename f.rename1 s1.1 tmp rp
    match s2.2 with
    | none =>
      ⟨s2.1, [rfs0, s1.1, s2.1], [UpEv.putTmpCall, UpEv.renameCall],
        [.uploaded lp rp], none, false, false⟩
    | some renameExc =>
      let s3 := runRemove f.removeTarget s2.1 rp
      let s4 := runRename f.rename2 s3.1 tmp rp
      match s4.2 with
      | none =>
        ⟨s4.1, [rfs0, s1.1, s2.1, s3.1, s4.1],
          [UpEv.putTmpCall, UpEv.renameCall, UpEv.removeTargetCall, UpEv.renameRetryCall],
          [.uploaded lp rp], none, false, true⟩
      | some _ =>
        let s5 := runRemove f.removeTmpPre s4.1 tmp
        let s6 := runPut f.putDirect (fsGet lfs lp) s5.1 rp
        match s6.2 with
        | none =>
          ⟨s6.1, [rfs0, s1.1, s2.1, s3.1, s4.1, s5.1, s6.1],
            [UpEv.putTmpCall, UpEv.renameCall, UpEv.removeTargetCall, UpEv.renameRetryCall,
              UpEv.removeTmpCall, UpEv.putDirectCall],
            [], none, true, true⟩
        | some putExc =>
          let s7 := runRemove f.removeTmpAgg s6.1 tmp
          upOuter f s7.1 [rfs0, s1.1, s2.1, s3.1, s4.1, s5.1, s6.1, s7.1]
            [UpEv.putTmpCall, UpEv.renameCall, UpEv.removeTargetCall, UpEv.renameRetryCall,
              UpEv.removeTmpCall, UpEv.putDirectCall, UpEv.removeTmpCall]
            lp rp tmp (.aggE renameExc putExc) true true

/-! ## `atomic_download` (transfer.py lines 83-114) -/

/-- Injected outcomes for each call site of `atomic_download`:
`isDirLocal` is the `os.path.isdir` probe of line 84, `makedirs` line 98,
`get1` line 100, `replace1` line 101, `removeTmpDl` line 111. -/
structure DlFaults where
  isDirLocal : Bool
  makedirs : Outcome
  get1 : PutOutcome
  replace1 : Outcome
  removeTmpDl : Outcome
deriving DecidableEq

/-- Result of `atomic_download`: final local store, intermediate local
stores, printed lines, and what propagates to the caller. -/
structure DlResult where
  lfs : FS
  trace : List FS
  reported : List Report
  raised : Option PyErr
deriving DecidableEq

/-- Local-target fixup of lines 84-91. -/
def resolveLocalPath (isDir : Bool) (rp lp : String) : String :=
  let lp1 := if isDir then pjoin lp (basename rp) else lp
  let lp2 := if strEndsWith lp1 "/" || (basename lp1 == "") then pjoin lp1 (basename rp) else lp1
  if basename lp2 == "" then lp2 ++ ".tmp" else lp2

/-- The `except` ladder of lines 104-114: `FileNotFoundError` and
`PermissionError` only print and RETURN; anything else prints, removes the
temporary file best-effort and re-raises wrapped in a `RuntimeError`. -/
def dlOuter (f : DlFaults) (st : FS) (tr : List FS) (rp lp tmp : String) (e : PyErr) :
    DlResult :=
  match e with
  | .fnfE => ⟨st, tr, [.remoteNotFound rp], none⟩
  | .permE => ⟨st, tr, [.permDeniedDl rp], none⟩
  | e =>
    let r := runRemove f.removeTmpDl st tmp
    ⟨r.1, tr ++ [r.1], [.downloadFailed rp lp e], some (.dlWrapE e)⟩

/-- `atomic_download(sftp, remote_path, local_path)`.  `os.makedirs`
(line 98) creates directories, which the file map does not track; only its
possible exception is kept. -/
def atomic_download (f : DlFaults) (rfs lfs0 : FS) (rp lp0 : String) : DlResult :=
  let lp := resolveLocalPath f.isDirLocal rp lp0
  let tmp := lp ++ ".tmp"
  let mdErr : Option PyErr :=
    if dirname lp ≠ "" ∧ dirname lp ≠ "." then
      match f.makedirs with
      | .ok => none
      | .fail e => some e
    else none
  match mdErr with
  | some e => dlOuter f lfs0 [lfs0] rp lp tmp e
  | none =>
    let s1 := runGet f.get1 rfs lfs0 rp tmp
    match s1.2 with
    | some e => dlOuter f s1.1 [lfs0, s1.1] rp lp tmp e
    | none =>
      let s2 := runRename f.replace1 s1.1 tmp lp
      match s2.2 with
      | some e => dlOuter f s2.1 [lfs0, s1.1, s2.1] rp lp tmp e
      | none => ⟨s2.1, [lfs0, s1.1, s2.1], [.downloaded rp lp], none⟩

/-- All-success fault assignment for uploads. -/
def cleanUp : UpFaults := ⟨.ok, .ok, .ok, .ok, .ok, .ok, .ok, .ok⟩

/-- All-success fault assignment for downloads (local target not a
directory). -/
def cleanDl : DlFaults := ⟨false, .ok, .ok, .ok, .ok⟩

/-! ## Metadata (`{mode, size, mtime}`) -/

/-- One `os.stat` / `listdir_attr` record: `(st_mode, st_size, st_mtime)`. -/
structure Meta where
  mode : Nat
  size : Nat
  mtime : Int
deriving DecidableEq

/-! ## `list_remote` (transfer.py lines 129-142)

A remote directory listing is modelled first-child/next-sibling so that
all recursion is structural: `REnt` is the sequence of entries
`sftp.listdir_attr` returns for one directory; a `dir` entry carries
whether listing *it* succeeds (`ok`) and its own entries.  The
`stat.S_ISDIR(attr.st_mode)` test of line 136 corresponds to the
`file`/`dir` constructor distinction. -/
inductive REnt where
  | nil
  | file (name : String) (m : Meta) (rest : REnt)
  | dir (name : String) (ok : Bool) (inside : REnt) (rest : REnt)
deriving DecidableEq

/-- The recursive `_walk` of lines 132-137: a non-directory entry is
recorded under `os.path.join(rdir, attr.filename)` — the full walked path,
NOT the path relative to the scan root (`relfile` is computed at line 135
but line 139 keys the result by `rfile`); a directory entry is recursed
into, and recursing into an unlistable directory raises, aborting the
whole scan. -/
def walkRemote (rdir : String) : REnt → Except PyErr (List (String × Meta))
  | .nil => .ok []
  | .file n m rest =>
    match walkRemote rdir rest with
    | .error e => .error e
    | .ok r => .ok ((pjoin rdir n, m) :: r)
  | .dir n ok inside rest =>
    match (if ok then walkRemote (pjoin rdir n) inside else .error .permE) with
    | .error e => .error e
    | .ok sub =>
      match walkRemote rdir rest with
      | .error e => .error e
      | .ok r => .ok (sub ++ r)

/-- `list_remote(sftp, path)`: `rootOk` is whether `listdir_attr(path)`
itself succeeds. -/
def list_remote (path : String) (rootOk : Bool) (root : REnt) :
    Except PyErr (List (String × Meta)) :=
  if rootOk then walkRemote path root else .error .permE

/-- Some directory reachable through listable ancestors cannot be
listed. -/
def anyBlocked : REnt → Bool
  | .nil => false
  | .file _ _ rest => anyBlocked rest
  | .dir _ ok inside rest => !ok || (anyBlocked inside || anyBlocked rest)

/-! ## `list_local` (transfer.py lines 116-127)

Same first-child/next-sibling shape; each file additionally carries
whether `os.stat` on it succeeds.  `os.walk` is used with its default
`onerror=None`, which IGNORES scandir errors: an unlistable directory is
silently skipped (no yield, no recursion), it does not abort the walk. -/
inductive LEnt where
  | nil
  | file (name : String) (stOk : Bool) (m : Meta) (rest : LEnt)
  | dir (name : String) (ok : Bool) (inside : LEnt) (rest : LEnt)
deriving DecidableEq

/-- The plain files of one directory listing (what `os.walk` reports as
`files` for that root). -/
def filesOf : LEnt → List (String × Bool × Meta)
  | .nil => []
  | .file n st m rest => (n, st, m) :: filesOf rest
  | .dir _ _ _ rest => filesOf rest

/-- `os.walk` over the subdirectories of `cur` (top-down): an unlistable
directory yields nothing and is not recursed into. -/
def osWalkDirs (cur : String) : LEnt → List (String × List (String × Bool × Meta))
  | .nil => []
  | .file _ _ _ rest => osWalkDirs cur rest
  | .dir n ok inside rest =>
    (if ok then (pjoin cur n, filesOf inside) :: osWalkDirs (pjoin cur n) inside else [])
      ++ osWalkDirs cur rest

/-- `os.walk(path)`: the root itself first, then its subtree. -/
def osWalk (path : String) (rootOk : Bool) (root : LEnt) :
    List (String × List (String × Bool × Meta)) :=
  if rootOk then (path, filesOf root) :: osWalkDirs path root else []

/-- Lines 122-124: the recorded key for file `f` found under walk root
with root-relative position `relroot`. -/
def localKey (relroot f : String) : String :=
  let relfile := normpath (pjoin relroot f)
  if strStartsWith relfile ".." then f else relfile

/-- Process the files of one walk root: `os.stat` each (a failing stat
raises, aborting the scan) and record it under `localKey`. -/
def statFiles (relroot : String) : List (String × Bool × Meta) →
    Except PyErr (List (String × Meta))
  | [] => .ok []
  | (f, st, m) :: rest =>
    if st then
      match statFiles relroot rest with
      | .error e => .error e
      | .ok r => .ok ((localKey relroot f, m) :: r)
    else .error .fnfE

/-- Iterate the walk output as lines 118-126 do. -/
def processWalk (path : String) : List (String × List (String × Bool × Meta)) →
    Except PyErr (List (String × Meta))
  | [] => .ok []
  | (root, files) :: rest =>
    match statFiles (relpath root path) files with
    | .error e => .error e
    | .ok es =>
      match processWalk path rest with
      | .error e => .error e
      | .ok r => .ok (es ++ r)

/-- `list_local(path)`. -/
def list_local (path : String) (rootOk : Bool) (root : LEnt) :
    Except PyErr (List (String × Meta)) :=
  processWalk path (osWalk path rootOk root)

/-- Every `os.stat` in the tree would succeed. -/
def allStatsOk : LEnt → Bool
  | .nil => true
  | .file _ st _ rest => st && allStatsOk rest
  | .dir _ _ inside rest => allStatsOk inside && allStatsOk rest

/-! ## Pattern filtering inside the sync entry points -/

/-- The filter of `sync_pull` lines 181-184 (and, identically,
`sync_bidirectional` lines 214-217): a path is SKIPPED when the include
list is non-empty and the BASENAME matches no include pattern, or when the
exclude list is non-empty and the basename matches some exclude pattern.
Only the basename is ever tested here. -/
def pullSkips (inc exc : List String) (fname : String) : Bool :=
  (!inc.isEmpty && !(inc.any (fun pat => fnmatch fname pat))) ||
    (!exc.isEmpty && exc.any (fun pat => fnmatch fname pat))

/-- The spec's §4.2 filter rule (`included(pathKey, includeSet,
excludeSet)`), written from the spec's words for comparison: candidacy
tests the basename OR the full relative path against the patterns. -/
def specIncluded (inc exc : List String) (pathKey : String) : Bool :=
  (inc.isEmpty || inc.any (fun pat =>
      fnmatch (basename pathKey) pat || fnmatch pathKey pat)) &&
    !(!exc.isEmpty && exc.any (fun pat =>
      fnmatch (basename pathKey) pat || fnmatch pathKey pat))

/-- The exclude half of `sync_push`'s filter (lines 154-157), with
Python's lazy `or`: for each pattern, `fnmatch(fname, pat)` is evaluated
first and only if it is `False` is `fnmatch(rel_path, pat)` reached —
but `rel_path` is NOT BOUND in `sync_push`, so reaching it raises
`NameError`.  `any` stops at the first `True` element, hence only the
FIRST pattern is ever examined. -/
def pushExclEval (fname : String) (exc : List String) (si : Bool) :
    Except PyErr Bool :=
  if si && !exc.isEmpty then
    match exc with
    | [] => .ok si
    | q :: _ => if fnmatch fname q then .ok false else .error .nameE
  else .ok si

/-- The whole filter block of `sync_push` lines 149-157: include check
(lines 150-152, same lazy `rel_path` trap), then exclude check.  The
computed flag is returned but — see `sync_push` — never consulted. -/
def pushFilterEval (fname : String) (inc exc : List String) : Except PyErr Bool :=
  match inc with
  | [] => pushExclEval fname exc true
  | p :: _ => if fnmatch fname p then pushExclEval fname exc true else .error .nameE

/-! ## `sync_push` (transfer.py lines 144-173) -/

/-- Result of a push run over the scanned local mapping. -/
structure PushResult where
  rfs : FS
  attempted : List String
  reported : List Report
  raised : Option PyErr
deriving DecidableEq

/-- The per-file loop of `sync_push` RESTRICTED to runs whose remote
directory block completes: evaluate the filter (a `NameError` escapes and
aborts the run), then upload UNCONDITIONALLY — the `should_include` flag
computed at lines 149-157 is never tested, so no file is ever skipped.
The directory block of lines 162-171 is directory-only and assumed here
to finish (its handlers catch only `IOError`); the abort path a
non-IOError escape creates is kept in `sync_push_run_go` below.
`atomic_upload` never raises, so the `raised` propagation branch is dead
but kept for faithfulness. -/
def sync_push_go (faults : String → UpFaults) (local_dir remote_dir : String)
    (inc exc : List String) (lfs : FS) :
    List (String × Meta) → FS → PushResult
  | [], rfs => ⟨rfs, [], [], none⟩
  | (rel, _m) :: rest, rfs =>
    match pushFilterEval (basename rel) inc exc with
    | .error e => ⟨rfs, [], [], some e⟩
    | .ok _shouldInclude =>
      let r := atomic_upload (faults rel) lfs rfs (pjoin local_dir rel) (pjoin remote_dir rel)
      match r.raised with
      | some e => ⟨r.rfs, [rel], r.reported, some e⟩
      | none =>
        let k := sync_push_go faults local_dir remote_dir inc exc lfs rest r.rfs
        ⟨k.rfs, rel :: k.attempted, r.reported ++ k.reported, k.raised⟩

/-- `sync_push(sftp, local_dir, remote_dir, ...)`, parameterised by the
already-scanned local mapping (`list_local`'s output, line 145). -/
def sync_push (faults : String → UpFaults) (local_files : List (String × Meta))
    (local_dir remote_dir : String) (inc exc : List String) (lfs rfs : FS) :
    PushResult :=
  sync_push_go faults local_dir remote_dir inc exc lfs local_files rfs

/-! ## `sync_pull` (transfer.py lines 175-189) -/

/-- Result of a pull run over the scanned remote mapping. -/
structure PullResult where
  lfs : FS
  attempted : List String
  reported : List Report
  raised : Option PyErr
deriving DecidableEq

/-- The per-file loop of `sync_pull` RESTRICTED to runs whose line-188
`os.makedirs` succeeds: filter by basename, re-key by `relpath` against
the stripped remote root, download.  Nothing catches what
`atomic_download` raises, so a raising download ABORTS the loop, leaving
the remaining paths unprocessed.  (In the source the line-188 `makedirs`
sits outside any handler, so its failure is a second abort path; that
path is kept in `sync_pull_run_go` below.) -/
def sync_pull_go (faults : String → DlFaults) (rdirStripped local_dir : String)
    (inc exc : List String) (rfs : FS) :
    List (String × Meta) → FS → PullResult
  | [], lfs => ⟨lfs, [], [], none⟩
  | (rp, _m) :: rest, lfs =>
    if pullSkips inc exc (basename rp) then
      sync_pull_go faults rdirStripped local_dir inc exc rfs rest lfs
    else
      let r := atomic_download (faults rp) rfs lfs rp
        (pjoin local_dir (relpath rp rdirStripped))
      match r.raised with
      | some e => ⟨r.lfs, [rp], r.reported, some e⟩
      | none =>
        let k := sync_pull_go faults rdirStripped local_dir inc exc rfs rest r.lfs
        ⟨k.lfs, rp :: k.attempted, r.reported ++ k.reported, k.raised⟩

/-- `sync_pull(sftp, remote_dir, local_dir, ...)`, parameterised by the
already-scanned remote mapping (line 176; its keys are full remote
paths). -/
def sync_pull (faults : String → DlFaults) (remote_files : List (String × Meta))
    (remote_dir local_dir : String) (inc exc : List String) (rfs lfs : FS) :
    PullResult :=
  sync_pull_go faults (rstripSlashes remote_dir) local_dir inc exc rfs remote_files lfs

/-! ## `sync_bidirectional` (transfer.py lines 191-233) -/

/-- A planned per-path action: upload, download onto the local path, or
conflict (download onto `lfile ++ ".remote"` and print a notice). -/
inductive BAct where
  | up (lfile rfile : String)
  | down (rfile lfile : String)
  | confl (rfile lfile : String)
deriving DecidableEq

/-- The loop body of lines 205-233 for one relative path, given its
(possibly absent) local and remote records: filter by basename (lines
214-217, the same code as `sync_pull`'s filter), then decide by presence
and by the 5-second mtime rule of lines 224-233. -/
def bidiStep (inc exc : List String) (local_dir remote_dirS rel : String)
    (lmeta rmeta : Option Meta) : Option BAct :=
  let lfile := pjoin local_dir rel
  let rfile := pjoin remote_dirS rel
  if pullSkips inc exc (basename rel) then none
  else
    match lmeta, rmeta with
    | some _, none => some (.up lfile rfile)
    | none, some _ => some (.down rfile lfile)
    | some lm, some rm =>
      if (lm.mtime - rm.mtime).natAbs ≤ 5 then some (.confl rfile lfile)
      else if lm.mtime > rm.mtime then some (.up lfile rfile)
      else some (.down rfile lfile)
    | none, none => none

/-- Lines 196-200: re-key the raw remote mapping relative to the stripped
remote root. -/
def rekeyRemote (remote_files_raw : List (String × Meta)) (remote_dirS : String) :
    List (String × Meta) :=
  remote_files_raw.map (fun e => (relpath e.1 remote_dirS, e.2))

/-- First-occurrence deduplication (the Python `set` union of line 203;
set iteration order is unspecified, the model fixes left-to-right
first-occurrence order — every claim below is per-path). -/
def dedupAcc (seen : List String) : List String → List String
  | [] => []
  | k :: r =>
    if seen.contains k then dedupAcc seen r else k :: dedupAcc (k :: seen) r

/-- The planning half of `sync_bidirectional`: union of key sets, then
the per-path decision. -/
def sync_bidirectional_plan (local_files remote_files_raw : List (String × Meta))
    (local_dir remote_dir : String) (inc exc : List String) :
    List (String × BAct) :=
  let rdS := rstripSlashes remote_dir
  let remote_files := rekeyRemote remote_files_raw rdS
  let allFiles := dedupAcc []
    (local_files.map Prod.fst ++ remote_files.map Prod.fst)
  allFiles.filterMap (fun rel =>
    (bidiStep inc exc local_dir rdS rel
        (List.lookup rel local_files) (List.lookup rel remote_files)).map
      (fun a => (rel, a)))

/-- Result of executing a bidirectional plan. -/
structure BidiResult where
  lfs : FS
  rfs : FS
  performed : List (String × BAct)
  reported : List Report
  raised : Option PyErr
deriving DecidableEq

/-- Execute the planned actions in order: uploads through
`atomic_upload` (line 220/231), downloads through `atomic_download`
(line 223/233), conflicts through `atomic_download` onto
`lfile + ".remote"` followed by the notice (line 228-229; the notice is
only reached when the download returned).  A remote-only download is
preceded by the `os.makedirs` of line 222, which sits OUTSIDE any
handler: `mkF` injects its outcome, and its failure aborts the run, as
does a raising download (nothing in `sync_bidirectional` catches
either).  The conflict download of line 228 has no preceding
`makedirs`. -/
def execBidi (upF : String → UpFaults) (dlF : String → DlFaults)
    (mkF : String → Outcome) :
    List (String × BAct) → FS → FS → BidiResult
  | [], lfs, rfs => ⟨lfs, rfs, [], [], none⟩
  | (rel, act) :: rest, lfs, rfs =>
    match act with
    | .up lfile rfile =>
      let r := atomic_upload (upF rel) lfs rfs lfile rfile
      match r.raised with
      | some e => ⟨lfs, r.rfs, [(rel, act)], r.reported, some e⟩
      | none =>
        let k := execBidi upF dlF mkF rest lfs r.rfs
        ⟨k.lfs, k.rfs, (rel, act) :: k.performed, r.reported ++ k.reported, k.raised⟩
    | .down rfile lfile =>
      match mkF rel with
      | .fail e => ⟨lfs, rfs, [], [], some e⟩
      | .ok =>
        let r := atomic_download (dlF rel) rfs lfs rfile lfile
        match r.raised with
        | some e => ⟨r.lfs, rfs, [(rel, act)], r.reported, some e⟩
        | none =>
          let k := execBidi upF dlF mkF rest r.lfs rfs
          ⟨k.lfs, k.rfs, (rel, act) :: k.performed, r.reported ++ k.reported, k.raised⟩
    | .confl rfile lfile =>
      let r := atomic_download (dlF rel) rfs lfs rfile (lfile ++ ".remote")
      match r.raised with
      | some e => ⟨r.lfs, rfs, [(rel, act)], r.reported, some e⟩
      | none =>
        let k := execBidi upF dlF mkF rest r.lfs rfs
        ⟨k.lfs, k.rfs, (rel, act) :: k.performed,
          (r.reported ++ [.conflictNote rel]) ++ k.reported, k.raised⟩

/-- `sync_bidirectional(sftp, local_dir, remote_dir, ...)`, parameterised
by the two already-scanned mappings (lines 192-194). -/
def sync_bidirectional (upF : String → UpFaults) (dlF : String → DlFaults)
    (mkF : String → Outcome)
    (local_files remote_files_raw : List (String × Meta))
    (local_dir remote_dir : String) (inc exc : List String) (lfs rfs : FS) :
    BidiResult :=
  execBidi upF dlF mkF
    (sync_bidirectional_plan local_files remote_files_raw local_dir remote_dir inc exc)
    lfs rfs

/-! ## Full-fidelity push/pull runs (directory-creation abort paths)

Two call sites of the sync loops can abort a run without any transfer
failing: `sync_pull` calls `os.makedirs` at line 188 OUTSIDE any
exception handler, and `sync_push`'s remote-directory block (lines
162-171) catches only `IOError`, so any other exception raised by
`sftp.chdir`/`sftp.mkdir` escapes `sync_push`.  The `_go` loops above
assume those steps complete; the `_run` loops below carry one injected
outcome per file for exactly these call sites.  (`execBidi` already
carries line 222's `makedirs` via `mkF`.) -/

/-- Per-file injected outcomes for a `sync_push` run: `dirs` is the
remote-directory block of lines 162-171 (`sftp.chdir` under `except
IOError`, then best-effort `sftp.mkdir` with `except IOError: pass`).
`.ok` means the block completed, any `IOError` swallowed inside;
`.fail e` means a non-IOError exception escaped it. -/
structure PushFaults where
  dirs : Outcome
  up : UpFaults
deriving DecidableEq

/-- The per-file loop of `sync_push` with the lines 162-171 abort path
kept: filter evaluation (a `NameError` escapes), then the directory
block (an escaping exception aborts the push before the upload), then
the unconditional upload. -/
def sync_push_run_go (fts : String → PushFaults) (local_dir remote_dir : String)
    (inc exc : List String) (lfs : FS) :
    List (String × Meta) → FS → PushResult
  | [], rfs => ⟨rfs, [], [], none⟩
  | (rel, _m) :: rest, rfs =>
    match pushFilterEval (basename rel) inc exc with
    | .error e => ⟨rfs, [], [], some e⟩
    | .ok _shouldInclude =>
      match (fts rel).dirs with
      | .fail e => ⟨rfs, [], [], some e⟩
      | .ok =>
        let r := atomic_upload (fts rel).up lfs rfs (pjoin local_dir rel)
          (pjoin remote_dir rel)
        match r.raised with
        | some e => ⟨r.rfs, [rel], r.reported, some e⟩
        | none =>
          let k := sync_push_run_go fts local_dir remote_dir inc exc lfs rest r.rfs
          ⟨k.rfs, rel :: k.attempted, r.reported ++ k.reported, k.raised⟩

/-- `sync_push` with the directory-block abort path kept. -/
def sync_push_run (fts : String → PushFaults) (local_files : List (String × Meta))
    (local_dir remote_dir : String) (inc exc : List String) (lfs rfs : FS) :
    PushResult :=
  sync_push_run_go fts local_dir remote_dir inc exc lfs local_files rfs

/-- Per-file injected outcomes for a `sync_pull` run: `mkd` is the
`os.makedirs` of line 188, which the source leaves outside any handler —
its failure aborts the pull before the download is attempted. -/
structure PullFaults where
  mkd : Outcome
  dl : DlFaults
deriving DecidableEq

/-- The per-file loop of `sync_pull` with the line-188 abort path kept. -/
def sync_pull_run_go (fts : String → PullFaults) (rdirStripped local_dir : String)
    (inc exc : List String) (rfs : FS) :
    List (String × Meta) → FS → PullResult
  | [], lfs => ⟨lfs, [], [], none⟩
  | (rp, _m) :: rest, lfs =>
    if pullSkips inc exc (basename rp) then
      sync_pull_run_go fts rdirStripped local_dir inc exc rfs rest lfs
    else
      match (fts rp).mkd with
      | .fail e => ⟨lfs, [], [], some e⟩
      | .ok =>
        let r := atomic_download (fts rp).dl rfs lfs rp
          (pjoin local_dir (relpath rp rdirStripped))
        match r.raised with
        | some e => ⟨r.lfs, [rp], r.reported, some e⟩
        | none =>
          let k := sync_pull_run_go fts rdirStripped local_dir inc exc rfs rest r.lfs
          ⟨k.lfs, rp :: k.attempted, r.reported ++ k.reported, k.raised⟩

/-- `sync_pull` with the line-188 abort path kept. -/
def sync_pull_run (fts : String → PullFaults) (remote_files : List (String × Meta))
    (remote_dir local_dir : String) (inc exc : List String) (rfs lfs : FS) :
    PullResult :=
  sync_pull_run_go fts (rstripSlashes remote_dir) local_dir inc exc rfs remote_files lfs

/-- Safety of one planned bidirectional action under a fault assignment:
an upload never raises; a remote-only download needs its line-222
`os.makedirs` to succeed and its `atomic_download` not to raise,
whatever the stores hold when its turn comes (earlier actions mutate
them); a conflict download (no preceding `makedirs`, line 228) needs the
same for its `.remote` target. -/
def bidiActSafe (dlF : String → DlFaults) (mkF : String → Outcome) :
    String × BAct → Prop
  | (_rel, .up _ _) => True
  | (rel, .down rfile lfile) =>
      mkF rel = .ok ∧
      ∀ rfs' lfs', (atomic_download (dlF rel) rfs' lfs' rfile lfile).raised = none
  | (rel, .confl rfile lfile) =>
      ∀ rfs' lfs',
        (atomic_download (dlF rel) rfs' lfs' rfile (lfile ++ ".remote")).raised = none

/-! ## Helper lemmas -/

theorem strLen_append (s t : String) :
    (s ++ t).data.length = s.data.length + t.data.length := by
  rw [strData_append, List.length_append]

theorem strNe_of_len (s t : String) (h : s.data.length ≠ t.data.length) : s ≠ t := by
  intro heq; exact h (congrArg (fun x => x.data.length) heq)

theorem runRemove_get_ne (o : Outcome) (fs : FS) (p q : String) (h : q ≠ p) :
    fsGet (runRemove o fs p).1 q = fsGet fs q := by
  unfold runRemove
  cases hg : fsGet fs p with
  | none => rfl
  | some c =>
    cases o with
    | ok => exact fsGet_del_ne fs p q h
    | fail e => rfl

theorem runRemove_ok_get_none (fs : FS) (p : String) :
    fsGet (runRemove .ok fs p).1 p = none := by
  unfold runRemove
  cases hg : fsGet fs p with
  | none => exact hg
  | some c => exact fsGet_del_self fs p

theorem runRemove_none_get_none (o : Outcome) (fs : FS) (p : String)
    (h : fsGet fs p = none) : fsGet (runRemove o fs p).1 p = none := by
  unfold runRemove
  rw [h]
  exact h

/-- A successful all-clean upload in full: content lands at the resolved
target via the temporary path and the rename, which also removes the
temporary file. -/
theorem atomic_upload_clean (lfs rfs : FS) (lp rp : String) (c : List Nat)
    (hres : resolveRemotePath lp rp = rp) (hl : fsGet lfs lp = some c) :
    atomic_upload cleanUp lfs rfs lp rp =
      ⟨fsDel (fsSet (fsSet rfs (rp ++ ".tmp") c) rp c) (rp ++ ".tmp"),
        [rfs, fsSet rfs (rp ++ ".tmp") c,
          fsDel (fsSet (fsSet rfs (rp ++ ".tmp") c) rp c) (rp ++ ".tmp")],
        [UpEv.putTmpCall, UpEv.renameCall], [.uploaded lp rp], none, false, false⟩ := by
  unfold atomic_upload
  rw [hres, hl]
  have htmp : fsGet (fsSet rfs (rp ++ ".tmp") c) (rp ++ ".tmp") = some c :=
    fsGet_set_self rfs (rp ++ ".tmp") c
  simp [cleanUp, runPut, runRename, htmp]

/-- A successful all-clean download in full. -/
theorem atomic_download_clean (rfs lfs : FS) (rp lp : String) (rc : List Nat)
    (hres : resolveLocalPath false rp lp = lp) (hget : fsGet rfs rp = some rc) :
    atomic_download cleanDl rfs lfs rp lp =
      ⟨fsDel (fsSet (fsSet lfs (lp ++ ".tmp") rc) lp rc) (lp ++ ".tmp"),
        [lfs, fsSet lfs (lp ++ ".tmp") rc,
          fsDel (fsSet (fsSet lfs (lp ++ ".tmp") rc) lp rc) (lp ++ ".tmp")],
        [.downloaded rp lp], none⟩ := by
  unfold atomic_download
  have hres' : resolveLocalPath cleanDl.isDirLocal rp lp = lp := hres
  rw [hres']
  have htmp : fsGet (fsSet lfs (lp ++ ".tmp") rc) (lp ++ ".tmp") = some rc :=
    fsGet_set_self lfs (lp ++ ".tmp") rc
  simp [cleanDl, runGet, runPut, runRename, hget, htmp]

/-- `atomic_upload` returns normally on every path: lines 72-81 catch
every exception (including the aggregated `RuntimeError` of line 69) and
only print. -/
theorem upload_never_raises (f : UpFaults) (lfs rfs : FS) (lp rp : String) :
    (atomic_upload f lfs rfs lp rp).raised = none := by
  simp only [atomic_upload, upOuter]
  repeat' split
  all_goals rfl

/-- An all-clean download of a present remote file never raises,
whatever the initial local store. -/
theorem dl_clean_raised_none (rfs lfs : FS) (rp lp : String) (rc : List Nat)
    (hres : resolveLocalPath false rp lp = lp) (hget : fsGet rfs rp = some rc) :
    (atomic_download cleanDl rfs lfs rp lp).raised = none := by
  rw [atomic_download_clean rfs lfs rp lp rc hres hget]

theorem lookup_mem_keys {α : Type} (k : String) (v : α) (l : List (String × α))
    (h : List.lookup k l = some v) : k ∈ l.map Prod.fst := by
  induction l with
  | nil => simp [List.lookup] at h
  | cons e rest ih =>
    obtain ⟨k', v'⟩ := e
    by_cases hk : k = k'
    · simp [hk]
    · have hk' : (k == k') = false := by simp [hk]
      simp only [List.lookup, hk'] at h
      simp [ih h]

theorem mem_dedupAcc (k : String) (l : List String) :
    ∀ seen, k ∈ l → seen.contains k = false → k ∈ dedupAcc seen l := by
  induction l with
  | nil => intro seen h _; simp at h
  | cons k' rest ih =>
    intro seen h hseen
    cases hval : seen.contains k' with
    | true =>
      have hv' : k' ∈ seen := by simpa using hval
      have hmem : k ∈ rest := by
        rcases List.mem_cons.mp h with h1 | h1
        · subst h1; rw [hval] at hseen; cases hseen
        · exact h1
      have hstep : dedupAcc seen (k' :: rest) = dedupAcc seen rest := by
        simp [dedupAcc, hv']
      rw [hstep]
      exact ih seen hmem hseen
    | false =>
      have hv' : k' ∉ seen := by simpa using hval
      have hstep : dedupAcc seen (k' :: rest) = k' :: dedupAcc (k' :: seen) rest := by
        simp [dedupAcc, hv']
      rw [hstep]
      by_cases hk : k = k'
      · subst hk; simp
      · have hmem : k ∈ rest := by
          rcases List.mem_cons.mp h with h1 | h1
          · exact absurd h1 hk
          · exact h1
        have hcons : (k' :: seen).contains k = false := by
          have h2' : k ∉ seen := by simpa using hseen
          simp [List.contains_cons, hk, h2']
        exact List.mem_cons.mpr (Or.inr (ih (k' :: seen) hmem hcons))

/-- A one-file pull attempts the download exactly when the basename-only
filter does not skip it (whatever the download's outcome). -/
theorem pull_single_attempted (f : String → DlFaults) (rp : String) (m : Meta)
    (inc exc : List String) (rd ld : String) (rfs lfs : FS) :
    (sync_pull f [(rp, m)] rd ld inc exc rfs lfs).attempted
      = if pullSkips inc exc (basename rp) = true then [] else [rp] := by
  by_cases h : pullSkips inc exc (basename rp) = true
  · simp [sync_pull, sync_pull_go, h]
  · have h' : pullSkips inc exc (basename rp) = false := by
      cases hv : pullSkips inc exc (basename rp) with
      | true => exact absurd hv h
      | false => rfl
    cases hr : (atomic_download (f rp) rfs lfs rp
        (pjoin ld (relpath rp (rstripSlashes rd)))).raised with
    | none => simp [sync_pull, sync_pull_go, h', hr]
    | some e => simp [sync_pull, sync_pull_go, h', hr]

/-- The pull/bidirectional filter in terms of its parts: a path passes
iff the include list is empty or some include pattern matches the
basename, and no exclude pattern matches the basename. -/
theorem pullSkips_false_iff (inc exc : List String) (fname : String) :
    pullSkips inc exc fname = false ↔
      ((inc = [] ∨ inc.any (fun pat => fnmatch fname pat) = true) ∧
        exc.any (fun pat => fnmatch fname pat) = false) := by
  cases inc with
  | nil =>
    cases exc with
    | nil => simp [pullSkips]
    | cons q qs =>
      cases hd : (q :: qs).any (fun pat => fnmatch fname pat) <;>
        simp only [pullSkips, hd, List.isEmpty_nil, List.isEmpty_cons, List.any_nil,
          Bool.not_true, Bool.not_false, Bool.false_and, Bool.and_false, Bool.and_true,
          Bool.true_and, Bool.false_or, Bool.or_false] <;> simp
  | cons p ps =>
    cases exc with
    | nil =>
      cases hb : (p :: ps).any (fun pat => fnmatch fname pat) <;>
        simp only [pullSkips, hb, List.isEmpty_nil, List.isEmpty_cons, List.any_nil,
          Bool.not_true, Bool.not_false, Bool.false_and, Bool.and_false, Bool.and_true,
          Bool.true_and, Bool.false_or, Bool.or_false] <;> simp
    | cons q qs =>
      cases hb : (p :: ps).any (fun pat => fnmatch fname pat) <;>
        cases hd : (q :: qs).any (fun pat => fnmatch fname pat) <;>
          simp only [pullSkips, hb, hd, List.isEmpty_cons,
            Bool.not_true, Bool.not_false, Bool.false_and, Bool.and_false, Bool.and_true,
            Bool.true_and, Bool.false_or, Bool.or_false] <;> simp

/-- A path the basename filter skips gets no bidirectional action. -/
theorem bidiStep_skips (inc exc : List String) (ld rdS rel : String)
    (lm rm : Option Meta) (h : pullSkips inc exc (basename rel) = true) :
    bidiStep inc exc ld rdS rel lm rm = none := by
  simp [bidiStep, h]

/-- A path present on both sides that passes the basename filter always
gets an action. -/
theorem bidiStep_present (inc exc : List String) (ld rdS rel : String) (lm rm : Meta)
    (h : pullSkips inc exc (basename rel) = false) :
    bidiStep inc exc ld rdS rel (some lm) (some rm) ≠ none := by
  simp only [bidiStep, h, Bool.false_eq_true, if_false]
  split
  · simp
  · split <;> simp

/-- Exactly when `sync_push`'s filter evaluation reaches the unbound
`rel_path`: the basename fails the first include pattern, or (having
passed the include check) fails the first exclude pattern. -/
theorem pushFilterEval_nameError_iff (fname : String) (inc exc : List String) :
    pushFilterEval fname inc exc = .error .nameE ↔
      ((∃ p ps, inc = p :: ps ∧ fnmatch fname p = false) ∨
       ((inc = [] ∨ ∃ p ps, inc = p :: ps ∧ fnmatch fname p = true) ∧
        ∃ q qs, exc = q :: qs ∧ fnmatch fname q = false)) := by
  cases inc with
  | nil =>
    cases exc with
    | nil => simp [pushFilterEval, pushExclEval]
    | cons q qs =>
      cases hq : fnmatch fname q <;>
        simp [pushFilterEval, pushExclEval, hq]
  | cons p ps =>
    cases hp : fnmatch fname p with
    | false =>
      simp [pushFilterEval, hp]
    | true =>
      cases exc with
      | nil => simp [pushFilterEval, pushExclEval, hp]
      | cons q qs =>
        cases hq : fnmatch fname q <;>
          simp [pushFilterEval, pushExclEval, hp, hq]

/-- When no file trips the `NameError`, `sync_push` uploads EVERY scanned
file: the computed `should_include` flag is never consulted, so the
filter never skips anything. -/
theorem sync_push_no_filtering (fts : String → UpFaults)
    (files : List (String × Meta)) (ld rd : String) (inc exc : List String)
    (lfs : FS) :
    ∀ rfs, (sync_push fts files ld rd inc exc lfs rfs).raised = none →
      (sync_push fts files ld rd inc exc lfs rfs).attempted = files.map Prod.fst := by
  induction files with
  | nil => intro rfs _; rfl
  | cons e rest ih =>
    intro rfs h
    obtain ⟨rel, m⟩ := e
    cases hf : pushFilterEval (basename rel) inc exc with
    | error er =>
      exfalso
      simp only [sync_push, sync_push_go, hf] at h
      cases h
    | ok b =>
      have hup := upload_never_raises (fts rel) lfs rfs (pjoin ld rel) (pjoin rd rel)
      simp only [sync_push, sync_push_go, hf, hup] at h ⊢
      have := ih (atomic_upload (fts rel) lfs rfs (pjoin ld rel) (pjoin rd rel)).rfs h
      simp only [sync_push] at this
      rw [this]
      simp

set_option maxHeartbeats 2000000 in
theorem sync_pull_go_cons (fts : String → DlFaults) (rdS ld : String)
    (inc exc : List String) (rfs : FS) (rp : String) (m : Meta)
    (rest : List (String × Meta)) (lfs : FS) :
    sync_pull_go fts rdS ld inc exc rfs ((rp, m) :: rest) lfs
      = if pullSkips inc exc (basename rp) = true then
          sync_pull_go fts rdS ld inc exc rfs rest lfs
        else
          match (atomic_download (fts rp) rfs lfs rp (pjoin ld (relpath rp rdS))).raised with
          | some e =>
            ⟨(atomic_download (fts rp) rfs lfs rp (pjoin ld (relpath rp rdS))).lfs, [rp],
              (atomic_download (fts rp) rfs lfs rp (pjoin ld (relpath rp rdS))).reported,
              some e⟩
          | none =>
            ⟨(sync_pull_go fts rdS ld inc exc rfs rest
                (atomic_download (fts rp) rfs lfs rp (pjoin ld (relpath rp rdS))).lfs).lfs,
              rp :: (sync_pull_go fts rdS ld inc exc rfs rest
                (atomic_download (fts rp) rfs lfs rp (pjoin ld (relpath rp rdS))).lfs).attempted,
              (atomic_download (fts rp) rfs lfs rp (pjoin ld (relpath rp rdS))).reported ++
                (sync_pull_go fts rdS ld inc exc rfs rest
                  (atomic_download (fts rp) rfs lfs rp (pjoin ld (relpath rp rdS))).lfs).reported,
              (sync_pull_go fts rdS ld inc exc rfs rest
                (atomic_download (fts rp) rfs lfs rp (pjoin ld (relpath rp rdS))).lfs).raised⟩
      := rfl

theorem sync_pull_go_skip (fts : String → DlFaults) (rdS ld : String)
    (inc exc : List String) (rfs : FS) (rp : String) (m : Meta)
    (rest : List (String × Meta)) (lfs : FS)
    (hs : pullSkips inc exc (basename rp) = true) :
    sync_pull_go fts rdS ld inc exc rfs ((rp, m) :: rest) lfs
      = sync_pull_go fts rdS ld inc exc rfs rest lfs := by
  rw [sync_pull_go_cons, hs]
  exact if_pos rfl

theorem sync_pull_go_abortStep (fts : String → DlFaults) (rdS ld : String)
    (inc exc : List String) (rfs : FS) (rp : String) (m : Meta)
    (rest : List (String × Meta)) (lfs : FS) (e : PyErr)
    (hs : pullSkips inc exc (basename rp) = false)
    (hr : (atomic_download (fts rp) rfs lfs rp (pjoin ld (relpath rp rdS))).raised = some e) :
    sync_pull_go fts rdS ld inc exc rfs ((rp, m) :: rest) lfs
      = ⟨(atomic_download (fts rp) rfs lfs rp (pjoin ld (relpath rp rdS))).lfs, [rp],
          (atomic_download (fts rp) rfs lfs rp (pjoin ld (relpath rp rdS))).reported,
          some e⟩ := by
  rw [sync_pull_go_cons, hs]
  rw [if_neg Bool.false_ne_true]
  rw [hr]

theorem sync_pull_go_okStep (fts : String → DlFaults) (rdS ld : String)
    (inc exc : List String) (rfs : FS) (rp : String) (m : Meta)
    (rest : List (String × Meta)) (lfs : FS)
    (hs : pullSkips inc exc (basename rp) = false)
    (hr : (atomic_download (fts rp) rfs lfs rp (pjoin ld (relpath rp rdS))).raised = none) :
    sync_pull_go fts rdS ld inc exc rfs ((rp, m) :: rest) lfs
      = ⟨(sync_pull_go fts rdS ld inc exc rfs rest
            (atomic_download (fts rp) rfs lfs rp (pjoin ld (relpath rp rdS))).lfs).lfs,
          rp :: (sync_pull_go fts rdS ld inc exc rfs rest
            (atomic_download (fts rp) rfs lfs rp (pjoin ld (relpath rp rdS))).lfs).attempted,
          (atomic_download (fts rp) rfs lfs rp (pjoin ld (relpath rp rdS))).reported ++
            (sync_pull_go fts rdS ld inc exc rfs rest
              (atomic_download (fts rp) rfs lfs rp (pjoin ld (relpath rp rdS))).lfs).reported,
          (sync_pull_go fts rdS ld inc exc rfs rest
            (atomic_download (fts rp) rfs lfs rp (pjoin ld (relpath rp rdS))).lfs).raised⟩ := by
  rw [sync_pull_go_cons, hs]
  rw [if_neg Bool.false_ne_true]
  rw [hr]

theorem sync_pull_abort (fts : String → DlFaults) (rp : String) (m : Meta)
    (rest : List (String × Meta)) (rd ld : String) (inc exc : List String)
    (rfs lfs : FS) (e : PyErr)
    (hns : pullSkips inc exc (basename rp) = false)
    (hr : (atomic_download (fts rp) rfs lfs rp
        (pjoin ld (relpath rp (rstripSlashes rd)))).raised = some e) :
    (sync_pull fts ((rp, m) :: rest) rd ld inc exc rfs lfs).raised = some e ∧
    (sync_pull fts ((rp, m) :: rest) rd ld inc exc rfs lfs).attempted = [rp] := by
  have hstep := sync_pull_go_abortStep fts (rstripSlashes rd) ld inc exc rfs rp m rest lfs e hns hr
  simp only [sync_pull]
  rw [hstep]
  exact ⟨rfl, rfl⟩

theorem sync_pull_all_processed (fts : String → DlFaults)
    (remote_files : List (String × Meta)) (rd ld : String) (inc exc : List String)
    (rfs : FS)
    (h : ∀ p ∈ remote_files.map Prod.fst, ∀ lfs',
      (atomic_download (fts p) rfs lfs' p
        (pjoin ld (relpath p (rstripSlashes rd)))).raised = none) :
    ∀ lfs, (sync_pull fts remote_files rd ld inc exc rfs lfs).raised = none ∧
      (sync_pull fts remote_files rd ld inc exc rfs lfs).attempted
        = remote_files.filterMap (fun e =>
            if pullSkips inc exc (basename e.1) = true then none else some e.1) := by
  induction remote_files with
  | nil => intro lfs; exact ⟨rfl, rfl⟩
  | cons ent rest ih =>
    obtain ⟨rp, m⟩ := ent
    have hh : ∀ p ∈ rest.map Prod.fst, ∀ lfs',
        (atomic_download (fts p) rfs lfs' p
          (pjoin ld (relpath p (rstripSlashes rd)))).raised = none := by
      intro p hp lfs'
      exact h p (by simp [hp]) lfs'
    intro lfs
    simp only [sync_pull] at ih ⊢
    by_cases hs : pullSkips inc exc (basename rp) = true
    · rw [sync_pull_go_skip fts (rstripSlashes rd) ld inc exc rfs rp m rest lfs hs]
      have hrest := ih hh lfs
      refine ⟨hrest.1, ?_⟩
      simp only [List.filterMap_cons, hs, eq_self_iff_true, ite_true]
      exact hrest.2
    · have hs' : pullSkips inc exc (basename rp) = false := by
        cases hv : pullSkips inc exc (basename rp) with
        | true => exact absurd hv hs
        | false => rfl
      have hr := h rp (by simp) lfs
      rw [sync_pull_go_okStep fts (rstripSlashes rd) ld inc exc rfs rp m rest lfs hs' hr]
      have hrest := ih hh
        (atomic_download (fts rp) rfs lfs rp (pjoin ld (relpath rp (rstripSlashes rd)))).lfs
      refine ⟨hrest.1, ?_⟩
      simp only [List.filterMap_cons, hs', Bool.false_eq_true, ite_false]
      rw [hrest.2]

theorem dl_cleanDl_never_raises (rfs lfs : FS) (rp lp0 : String) :
    (atomic_download cleanDl rfs lfs rp lp0).raised = none := by
  have hmd : (if dirname (resolveLocalPath cleanDl.isDirLocal rp lp0) ≠ "" ∧
        dirname (resolveLocalPath cleanDl.isDirLocal rp lp0) ≠ "." then
      (match cleanDl.makedirs with | .ok => none | .fail e => some e)
      else none) = (none : Option PyErr) := ite_self none
  cases hrc : fsGet rfs rp with
  | none =>
    have hg : runGet cleanDl.get1 rfs lfs rp
        (resolveLocalPath cleanDl.isDirLocal rp lp0 ++ ".tmp") = (lfs, some .fnfE) := by
      unfold runGet runPut; rw [hrc]
    simp only [atomic_download, hmd, hg]
    rfl
  | some rc =>
    have hg : runGet cleanDl.get1 rfs lfs rp
        (resolveLocalPath cleanDl.isDirLocal rp lp0 ++ ".tmp")
        = (fsSet lfs (resolveLocalPath cleanDl.isDirLocal rp lp0 ++ ".tmp") rc, none) := by
      unfold runGet runPut; rw [hrc]; rfl
    have hrep : runRename cleanDl.replace1
        (fsSet lfs (resolveLocalPath cleanDl.isDirLocal rp lp0 ++ ".tmp") rc)
        (resolveLocalPath cleanDl.isDirLocal rp lp0 ++ ".tmp")
        (resolveLocalPath cleanDl.isDirLocal rp lp0)
        = (fsDel (fsSet (fsSet lfs (resolveLocalPath cleanDl.isDirLocal rp lp0 ++ ".tmp") rc)
            (resolveLocalPath cleanDl.isDirLocal rp lp0) rc)
            (resolveLocalPath cleanDl.isDirLocal rp lp0 ++ ".tmp"), none) := by
      unfold runRename; rw [fsGet_set_self]; rfl
    simp only [atomic_download, hmd, hg, hrep]

set_option maxHeartbeats 2000000 in
theorem sync_pull_run_go_cons (fts : String → PullFaults) (rdS ld : String)
    (inc exc : List String) (rfs : FS) (rp : String) (m : Meta)
    (rest : List (String × Meta)) (lfs : FS) :
    sync_pull_run_go fts rdS ld inc exc rfs ((rp, m) :: rest) lfs
      = if pullSkips inc exc (basename rp) = true then
          sync_pull_run_go fts rdS ld inc exc rfs rest lfs
        else
          match (fts rp).mkd with
          | .fail e => ⟨lfs, [], [], some e⟩
          | .ok =>
            match (atomic_download (fts rp).dl rfs lfs rp
                (pjoin ld (relpath rp rdS))).raised with
            | some e =>
              ⟨(atomic_download (fts rp).dl rfs lfs rp (pjoin ld (relpath rp rdS))).lfs,
                [rp],
                (atomic_download (fts rp).dl rfs lfs rp (pjoin ld (relpath rp rdS))).reported,
                some e⟩
            | none =>
              ⟨(sync_pull_run_go fts rdS ld inc exc rfs rest
                  (atomic_download (fts rp).dl rfs lfs rp (pjoin ld (relpath rp rdS))).lfs).lfs,
                rp :: (sync_pull_run_go fts rdS ld inc exc rfs rest
                  (atomic_download (fts rp).dl rfs lfs rp (pjoin ld (relpath rp rdS))).lfs).attempted,
                (atomic_download (fts rp).dl rfs lfs rp (pjoin ld (relpath rp rdS))).reported ++
                  (sync_pull_run_go fts rdS ld inc exc rfs rest
                    (atomic_download (fts rp).dl rfs lfs rp (pjoin ld (relpath rp rdS))).lfs).reported,
                (sync_pull_run_go fts rdS ld inc exc rfs rest
                  (atomic_download (fts rp).dl rfs lfs rp (pjoin ld (relpath rp rdS))).lfs).raised⟩
      := rfl

theorem sync_pull_run_go_skip (fts : String → PullFaults) (rdS ld : String)
    (inc exc : List String) (rfs : FS) (rp : String) (m : Meta)
    (rest : List (String × Meta)) (lfs : FS)
    (hs : pullSkips inc exc (basename rp) = true) :
    sync_pull_run_go fts rdS ld inc exc rfs ((rp, m) :: rest) lfs
      = sync_pull_run_go fts rdS ld inc exc rfs rest lfs := by
  rw [sync_pull_run_go_cons, hs]
  exact if_pos rfl

theorem sync_pull_run_go_mkdFail (fts : String → PullFaults) (rdS ld : String)
    (inc exc : List String) (rfs : FS) (rp : String) (m : Meta)
    (rest : List (String × Meta)) (lfs : FS) (e : PyErr)
    (hs : pullSkips inc exc (basename rp) = false)
    (hmk : (fts rp).mkd = .fail e) :
    sync_pull_run_go fts rdS ld inc exc rfs ((rp, m) :: rest) lfs
      = ⟨lfs, [], [], some e⟩ := by
  rw [sync_pull_run_go_cons, hs]
  rw [if_neg Bool.false_ne_true]
  rw [hmk]

theorem sync_pull_run_go_abortStep (fts : String → PullFaults) (rdS ld : String)
    (inc exc : List String) (rfs : FS) (rp : String) (m : Meta)
    (rest : List (String × Meta)) (lfs : FS) (e : PyErr)
    (hs : pullSkips inc exc (basename rp) = false)
    (hmk : (fts rp).mkd = .ok)
    (hr : (atomic_download (fts rp).dl rfs lfs rp (pjoin ld (relpath rp rdS))).raised
      = some e) :
    sync_pull_run_go fts rdS ld inc exc rfs ((rp, m) :: rest) lfs
      = ⟨(atomic_download (fts rp).dl rfs lfs rp (pjoin ld (relpath rp rdS))).lfs, [rp],
          (atomic_download (fts rp).dl rfs lfs rp (pjoin ld (relpath rp rdS))).reported,
          some e⟩ := by
  rw [sync_pull_run_go_cons, hs]
  rw [if_neg Bool.false_ne_true]
  rw [hmk, hr]

theorem sync_pull_run_go_okStep (fts : String → PullFaults) (rdS ld : String)
    (inc exc : List String) (rfs : FS) (rp : String) (m : Meta)
    (rest : List (String × Meta)) (lfs : FS)
    (hs : pullSkips inc exc (basename rp) = false)
    (hmk : (fts rp).mkd = .ok)
    (hr : (atomic_download (fts rp).dl rfs lfs rp (pjoin ld (relpath rp rdS))).raised
      = none) :
    sync_pull_run_go fts rdS ld inc exc rfs ((rp, m) :: rest) lfs
      = ⟨(sync_pull_run_go fts rdS ld inc exc rfs rest
            (atomic_download (fts rp).dl rfs lfs rp (pjoin ld (relpath rp rdS))).lfs).lfs,
          rp :: (sync_pull_run_go fts rdS ld inc exc rfs rest
            (atomic_download (fts rp).dl rfs lfs rp (pjoin ld (relpath rp rdS))).lfs).attempted,
          (atomic_download (fts rp).dl rfs lfs rp (pjoin ld (relpath rp rdS))).reported ++
            (sync_pull_run_go fts rdS ld inc exc rfs rest
              (atomic_download (fts rp).dl rfs lfs rp (pjoin ld (relpath rp rdS))).lfs).reported,
          (sync_pull_run_go fts rdS ld inc exc rfs rest
            (atomic_download (fts rp).dl rfs lfs rp (pjoin ld (relpath rp rdS))).lfs).raised⟩ := by
  rw [sync_pull_run_go_cons, hs]
  rw [if_neg Bool.false_ne_true]
  rw [hmk, hr]

theorem sync_pull_run_abort_download (fts : String → PullFaults) (rp : String)
    (m : Meta) (rest : List (String × Meta)) (rd ld : String)
    (inc exc : List String) (rfs lfs : FS) (e : PyErr)
    (hns : pullSkips inc exc (basename rp) = false)
    (hmk : (fts rp).mkd = .ok)
    (hr : (atomic_download (fts rp).dl rfs lfs rp
        (pjoin ld (relpath rp (rstripSlashes rd)))).raised = some e) :
    (sync_pull_run fts ((rp, m) :: rest) rd ld inc exc rfs lfs).raised = some e ∧
    (sync_pull_run fts ((rp, m) :: rest) rd ld inc exc rfs lfs).attempted = [rp] := by
  have hstep := sync_pull_run_go_abortStep fts (rstripSlashes rd) ld inc exc rfs rp m
    rest lfs e hns hmk hr
  simp only [sync_pull_run]
  rw [hstep]
  exact ⟨rfl, rfl⟩

theorem sync_pull_run_abort_makedirs (fts : String → PullFaults) (rp : String)
    (m : Meta) (rest : List (String × Meta)) (rd ld : String)
    (inc exc : List String) (rfs lfs : FS) (e : PyErr)
    (hns : pullSkips inc exc (basename rp) = false)
    (hmk : (fts rp).mkd = .fail e) :
    (sync_pull_run fts ((rp, m) :: rest) rd ld inc exc rfs lfs).raised = some e ∧
    (sync_pull_run fts ((rp, m) :: rest) rd ld inc exc rfs lfs).attempted = [] := by
  have hstep := sync_pull_run_go_mkdFail fts (rstripSlashes rd) ld inc exc rfs rp m
    rest lfs e hns hmk
  simp only [sync_pull_run]
  rw [hstep]
  exact ⟨rfl, rfl⟩

theorem sync_pull_run_all_processed (fts : String → PullFaults)
    (remote_files : List (String × Meta)) (rd ld : String) (inc exc : List String)
    (rfs : FS)
    (hmk : ∀ p ∈ remote_files.map Prod.fst, (fts p).mkd = .ok)
    (h : ∀ p ∈ remote_files.map Prod.fst, ∀ lfs',
      (atomic_download (fts p).dl rfs lfs' p
        (pjoin ld (relpath p (rstripSlashes rd)))).raised = none) :
    ∀ lfs, (sync_pull_run fts remote_files rd ld inc exc rfs lfs).raised = none ∧
      (sync_pull_run fts remote_files rd ld inc exc rfs lfs).attempted
        = remote_files.filterMap (fun e =>
            if pullSkips inc exc (basename e.1) = true then none else some e.1) := by
  induction remote_files with
  | nil => intro lfs; exact ⟨rfl, rfl⟩
  | cons ent rest ih =>
    obtain ⟨rp, m⟩ := ent
    have hmk2 : ∀ p ∈ rest.map Prod.fst, (fts p).mkd = .ok := by
      intro p hp
      exact hmk p (by simp [hp])
    have hh : ∀ p ∈ rest.map Prod.fst, ∀ lfs',
        (atomic_download (fts p).dl rfs lfs' p
          (pjoin ld (relpath p (rstripSlashes rd)))).raised = none := by
      intro p hp lfs'
      exact h p (by simp [hp]) lfs'
    intro lfs
    simp only [sync_pull_run] at ih ⊢
    by_cases hs : pullSkips inc exc (basename rp) = true
    · rw [sync_pull_run_go_skip fts (rstripSlashes rd) ld inc exc rfs rp m rest lfs hs]
      have hrest := ih hmk2 hh lfs
      refine ⟨hrest.1, ?_⟩
      simp only [List.filterMap_cons, hs, eq_self_iff_true, ite_true]
      exact hrest.2
    · have hs' : pullSkips inc exc (basename rp) = false := by
        cases hv : pullSkips inc exc (basename rp) with
        | true => exact absurd hv hs
        | false => rfl
      have hmk1 := hmk rp (by simp)
      have hr := h rp (by simp) lfs
      rw [sync_pull_run_go_okStep fts (rstripSlashes rd) ld inc exc rfs rp m rest lfs
        hs' hmk1 hr]
      have hrest := ih hmk2 hh
        (atomic_download (fts rp).dl rfs lfs rp (pjoin ld (relpath rp (rstripSlashes rd)))).lfs
      refine ⟨hrest.1, ?_⟩
      simp only [List.filterMap_cons, hs', Bool.false_eq_true, ite_false]
      rw [hrest.2]

theorem sync_push_run_attempts_all (fts : String → PushFaults)
    (files : List (String × Meta)) (ld rd : String) (inc exc : List String)
    (lfs : FS) :
    ∀ rfs, (sync_push_run fts files ld rd inc exc lfs rfs).raised = none →
      (sync_push_run fts files ld rd inc exc lfs rfs).attempted = files.map Prod.fst := by
  induction files with
  | nil => intro rfs _; rfl
  | cons e rest ih =>
    intro rfs h
    obtain ⟨rel, m⟩ := e
    cases hf : pushFilterEval (basename rel) inc exc with
    | error er =>
      exfalso
      simp only [sync_push_run, sync_push_run_go, hf] at h
      cases h
    | ok b =>
      cases hd : (fts rel).dirs with
      | fail e2 =>
        exfalso
        simp only [sync_push_run, sync_push_run_go, hf, hd] at h
        cases h
      | ok =>
        have hup := upload_never_raises (fts rel).up lfs rfs (pjoin ld rel) (pjoin rd rel)
        simp only [sync_push_run, sync_push_run_go, hf, hd, hup] at h ⊢
        have := ih (atomic_upload (fts rel).up lfs rfs (pjoin ld rel) (pjoin rd rel)).rfs h
        simp only [sync_push_run] at this
        rw [this]
        simp

theorem sync_push_run_abort_dirs (fts : String → PushFaults) (rel : String)
    (m : Meta) (rest : List (String × Meta)) (ld rd : String)
    (inc exc : List String) (lfs rfs : FS) (e : PyErr) (b : Bool)
    (hf : pushFilterEval (basename rel) inc exc = .ok b)
    (hd : (fts rel).dirs = .fail e) :
    (sync_push_run fts ((rel, m) :: rest) ld rd inc exc lfs rfs).raised = some e ∧
    (sync_push_run fts ((rel, m) :: rest) ld rd inc exc lfs rfs).attempted = [] := by
  simp only [sync_push_run, sync_push_run_go, hf, hd]
  exact ⟨trivial, trivial⟩

set_option maxHeartbeats 2000000 in
theorem execBidi_cons_up (upF : String → UpFaults) (dlF : String → DlFaults)
    (mkF : String → Outcome) (rel lfile rfile : String)
    (rest : List (String × BAct)) (lfs rfs : FS) :
    execBidi upF dlF mkF ((rel, .up lfile rfile) :: rest) lfs rfs
      = match (atomic_upload (upF rel) lfs rfs lfile rfile).raised with
        | some e => ⟨lfs, (atomic_upload (upF rel) lfs rfs lfile rfile).rfs,
            [(rel, .up lfile rfile)],
            (atomic_upload (upF rel) lfs rfs lfile rfile).reported, some e⟩
        | none =>
          ⟨(execBidi upF dlF mkF rest lfs
              (atomic_upload (upF rel) lfs rfs lfile rfile).rfs).lfs,
            (execBidi upF dlF mkF rest lfs
              (atomic_upload (upF rel) lfs rfs lfile rfile).rfs).rfs,
            (rel, .up lfile rfile) :: (execBidi upF dlF mkF rest lfs
              (atomic_upload (upF rel) lfs rfs lfile rfile).rfs).performed,
            (atomic_upload (upF rel) lfs rfs lfile rfile).reported ++
              (execBidi upF dlF mkF rest lfs
                (atomic_upload (upF rel) lfs rfs lfile rfile).rfs).reported,
            (execBidi upF dlF mkF rest lfs
              (atomic_upload (upF rel) lfs rfs lfile rfile).rfs).raised⟩
      := rfl

set_option maxHeartbeats 2000000 in
theorem execBidi_cons_down (upF : String → UpFaults) (dlF : String → DlFaults)
    (mkF : String → Outcome) (rel rfile lfile : String)
    (rest : List (String × BAct)) (lfs rfs : FS) :
    execBidi upF dlF mkF ((rel, .down rfile lfile) :: rest) lfs rfs
      = match mkF rel with
        | .fail e => ⟨lfs, rfs, [], [], some e⟩
        | .ok =>
          match (atomic_download (dlF rel) rfs lfs rfile lfile).raised with
          | some e => ⟨(atomic_download (dlF rel) rfs lfs rfile lfile).lfs, rfs,
              [(rel, .down rfile lfile)],
              (atomic_download (dlF rel) rfs lfs rfile lfile).reported, some e⟩
          | none =>
            ⟨(execBidi upF dlF mkF rest
                (atomic_download (dlF rel) rfs lfs rfile lfile).lfs rfs).lfs,
              (execBidi upF dlF mkF rest
                (atomic_download (dlF rel) rfs lfs rfile lfile).lfs rfs).rfs,
              (rel, .down rfile lfile) :: (execBidi upF dlF mkF rest
                (atomic_download (dlF rel) rfs lfs rfile lfile).lfs rfs).performed,
              (atomic_download (dlF rel) rfs lfs rfile lfile).reported ++
                (execBidi upF dlF mkF rest
                  (atomic_download (dlF rel) rfs lfs rfile lfile).lfs rfs).reported,
              (execBidi upF dlF mkF rest
                (atomic_download (dlF rel) rfs lfs rfile lfile).lfs rfs).raised⟩
      := rfl

set_option maxHeartbeats 2000000 in
theorem execBidi_cons_confl (upF : String → UpFaults) (dlF : String → DlFaults)
    (mkF : String → Outcome) (rel rfile lfile : String)
    (rest : List (String × BAct)) (lfs rfs : FS) :
    execBidi upF dlF mkF ((rel, .confl rfile lfile) :: rest) lfs rfs
      = match (atomic_download (dlF rel) rfs lfs rfile (lfile ++ ".remote")).raised with
        | some e => ⟨(atomic_download (dlF rel) rfs lfs rfile (lfile ++ ".remote")).lfs,
            rfs, [(rel, .confl rfile lfile)],
            (atomic_download (dlF rel) rfs lfs rfile (lfile ++ ".remote")).reported,
            some e⟩
        | none =>
          ⟨(execBidi upF dlF mkF rest
              (atomic_download (dlF rel) rfs lfs rfile (lfile ++ ".remote")).lfs rfs).lfs,
            (execBidi upF dlF mkF rest
              (atomic_download (dlF rel) rfs lfs rfile (lfile ++ ".remote")).lfs rfs).rfs,
            (rel, .confl rfile lfile) :: (execBidi upF dlF mkF rest
              (atomic_download (dlF rel) rfs lfs rfile (lfile ++ ".remote")).lfs rfs).performed,
            ((atomic_download (dlF rel) rfs lfs rfile (lfile ++ ".remote")).reported ++
                [.conflictNote rel]) ++
              (execBidi upF dlF mkF rest
                (atomic_download (dlF rel) rfs lfs rfile (lfile ++ ".remote")).lfs rfs).reported,
            (execBidi upF dlF mkF rest
              (atomic_download (dlF rel) rfs lfs rfile (lfile ++ ".remote")).lfs rfs).raised⟩
      := rfl

theorem execBidi_up_okStep (upF : String → UpFaults) (dlF : String → DlFaults)
    (mkF : String → Outcome) (rel lfile rfile : String)
    (rest : List (String × BAct)) (lfs rfs : FS)
    (hr : (atomic_upload (upF rel) lfs rfs lfile rfile).raised = none) :
    execBidi upF dlF mkF ((rel, .up lfile rfile) :: rest) lfs rfs
      = ⟨(execBidi upF dlF mkF rest lfs
            (atomic_upload (upF rel) lfs rfs lfile rfile).rfs).lfs,
          (execBidi upF dlF mkF rest lfs
            (atomic_upload (upF rel) lfs rfs lfile rfile).rfs).rfs,
          (rel, .up lfile rfile) :: (execBidi upF dlF mkF rest lfs
            (atomic_upload (upF rel) lfs rfs lfile rfile).rfs).performed,
          (atomic_upload (upF rel) lfs rfs lfile rfile).reported ++
            (execBidi upF dlF mkF rest lfs
              (atomic_upload (upF rel) lfs rfs lfile rfile).rfs).reported,
          (execBidi upF dlF mkF rest lfs
            (atomic_upload (upF rel) lfs rfs lfile rfile).rfs).raised⟩ := by
  rw [execBidi_cons_up, hr]

theorem execBidi_down_mkdirs_abort (upF : String → UpFaults) (dlF : String → DlFaults)
    (mkF : String → Outcome) (rel rfile lfile : String)
    (rest : List (String × BAct)) (lfs rfs : FS) (e : PyErr)
    (hmk : mkF rel = .fail e) :
    execBidi upF dlF mkF ((rel, .down rfile lfile) :: rest) lfs rfs
      = ⟨lfs, rfs, [], [], some e⟩ := by
  rw [execBidi_cons_down, hmk]

theorem execBidi_down_okStep (upF : String → UpFaults) (dlF : String → DlFaults)
    (mkF : String → Outcome) (rel rfile lfile : String)
    (rest : List (String × BAct)) (lfs rfs : FS)
    (hmk : mkF rel = .ok)
    (hr : (atomic_download (dlF rel) rfs lfs rfile lfile).raised = none) :
    execBidi upF dlF mkF ((rel, .down rfile lfile) :: rest) lfs rfs
      = ⟨(execBidi upF dlF mkF rest
            (atomic_download (dlF rel) rfs lfs rfile lfile).lfs rfs).lfs,
          (execBidi upF dlF mkF rest
            (atomic_download (dlF rel) rfs lfs rfile lfile).lfs rfs).rfs,
          (rel, .down rfile lfile) :: (execBidi upF dlF mkF rest
            (atomic_download (dlF rel) rfs lfs rfile lfile).lfs rfs).performed,
          (atomic_download (dlF rel) rfs lfs rfile lfile).reported ++
            (execBidi upF dlF mkF rest
              (atomic_download (dlF rel) rfs lfs rfile lfile).lfs rfs).reported,
          (execBidi upF dlF mkF rest
            (atomic_download (dlF rel) rfs lfs rfile lfile).lfs rfs).raised⟩ := by
  rw [execBidi_cons_down, hmk, hr]

theorem execBidi_down_abort (upF : String → UpFaults) (dlF : String → DlFaults)
    (mkF : String → Outcome) (rel rfile lfile : String)
    (rest : List (String × BAct)) (lfs rfs : FS) (e : PyErr)
    (hmk : mkF rel = .ok)
    (hr : (atomic_download (dlF rel) rfs lfs rfile lfile).raised = some e) :
    (execBidi upF dlF mkF ((rel, .down rfile lfile) :: rest) lfs rfs).raised = some e ∧
    (execBidi upF dlF mkF ((rel, .down rfile lfile) :: rest) lfs rfs).performed
      = [(rel, .down rfile lfile)] := by
  rw [execBidi_cons_down, hmk, hr]
  exact ⟨rfl, rfl⟩

theorem execBidi_confl_okStep (upF : String → UpFaults) (dlF : String → DlFaults)
    (mkF : String → Outcome) (rel rfile lfile : String)
    (rest : List (String × BAct)) (lfs rfs : FS)
    (hr : (atomic_download (dlF rel) rfs lfs rfile (lfile ++ ".remote")).raised = none) :
    execBidi upF dlF mkF ((rel, .confl rfile lfile) :: rest) lfs rfs
      = ⟨(execBidi upF dlF mkF rest
            (atomic_download (dlF rel) rfs lfs rfile (lfile ++ ".remote")).lfs rfs).lfs,
          (execBidi upF dlF mkF rest
            (atomic_download (dlF rel) rfs lfs rfile (lfile ++ ".remote")).lfs rfs).rfs,
          (rel, .confl rfile lfile) :: (execBidi upF dlF mkF rest
            (atomic_download (dlF rel) rfs lfs rfile (lfile ++ ".remote")).lfs rfs).performed,
          ((atomic_download (dlF rel) rfs lfs rfile (lfile ++ ".remote")).reported ++
              [.conflictNote rel]) ++
            (execBidi upF dlF mkF rest
              (atomic_download (dlF rel) rfs lfs rfile (lfile ++ ".remote")).lfs rfs).reported,
          (execBidi upF dlF mkF rest
            (atomic_download (dlF rel) rfs lfs rfile (lfile ++ ".remote")).lfs rfs).raised⟩ := by
  rw [execBidi_cons_confl, hr]

theorem execBidi_confl_abort (upF : String → UpFaults) (dlF : String → DlFaults)
    (mkF : String → Outcome) (rel rfile lfile : String)
    (rest : List (String × BAct)) (lfs rfs : FS) (e : PyErr)
    (hr : (atomic_download (dlF rel) rfs lfs rfile (lfile ++ ".remote")).raised = some e) :
    (execBidi upF dlF mkF ((rel, .confl rfile lfile) :: rest) lfs rfs).raised = some e ∧
    (execBidi upF dlF mkF ((rel, .confl rfile lfile) :: rest) lfs rfs).performed
      = [(rel, .confl rfile lfile)] := by
  rw [execBidi_cons_confl, hr]
  exact ⟨rfl, rfl⟩

theorem execBidi_all_safe (upF : String → UpFaults) (dlF : String → DlFaults)
    (mkF : String → Outcome) (plan : List (String × BAct))
    (h : ∀ pa ∈ plan, bidiActSafe dlF mkF pa) :
    ∀ lfs rfs, (execBidi upF dlF mkF plan lfs rfs).raised = none ∧
      (execBidi upF dlF mkF plan lfs rfs).performed = plan := by
  induction plan with
  | nil => intro lfs rfs; exact ⟨rfl, rfl⟩
  | cons pa rest ih =>
    obtain ⟨rel, act⟩ := pa
    have hh : ∀ q ∈ rest, bidiActSafe dlF mkF q := by
      intro q hq
      exact h q (List.mem_cons_of_mem _ hq)
    have hhead := h (rel, act) (List.mem_cons_self _ _)
    intro lfs rfs
    cases act with
    | up lfile rfile =>
      have hup := upload_never_raises (upF rel) lfs rfs lfile rfile
      rw [execBidi_up_okStep upF dlF mkF rel lfile rfile rest lfs rfs hup]
      have hrest := ih hh lfs (atomic_upload (upF rel) lfs rfs lfile rfile).rfs
      exact ⟨hrest.1, congrArg (fun l => (rel, BAct.up lfile rfile) :: l) hrest.2⟩
    | down rfile lfile =>
      have hhead' : mkF rel = .ok ∧
          ∀ rfs' lfs', (atomic_download (dlF rel) rfs' lfs' rfile lfile).raised = none :=
        hhead
      rw [execBidi_down_okStep upF dlF mkF rel rfile lfile rest lfs rfs hhead'.1
        (hhead'.2 rfs lfs)]
      have hrest := ih hh (atomic_download (dlF rel) rfs lfs rfile lfile).lfs rfs
      exact ⟨hrest.1, congrArg (fun l => (rel, BAct.down rfile lfile) :: l) hrest.2⟩
    | confl rfile lfile =>
      have hhead' : ∀ rfs' lfs',
          (atomic_download (dlF rel) rfs' lfs' rfile (lfile ++ ".remote")).raised = none :=
        hhead
      rw [execBidi_confl_okStep upF dlF mkF rel rfile lfile rest lfs rfs
        (hhead' rfs lfs)]
      have hrest := ih hh
        (atomic_download (dlF rel) rfs lfs rfile (lfile ++ ".remote")).lfs rfs
      exact ⟨hrest.1, congrArg (fun l => (rel, BAct.confl rfile lfile) :: l) hrest.2⟩

theorem sync_bidirectional_all_safe (upF : String → UpFaults) (dlF : String → DlFaults)
    (mkF : String → Outcome) (local_files remote_files_raw : List (String × Meta))
    (ld rd : String) (inc exc : List String) (lfs rfs : FS)
    (h : ∀ pa ∈ sync_bidirectional_plan local_files remote_files_raw ld rd inc exc,
      bidiActSafe dlF mkF pa) :
    (sync_bidirectional upF dlF mkF local_files remote_files_raw ld rd inc exc lfs rfs).raised
      = none ∧
    (sync_bidirectional upF dlF mkF local_files remote_files_raw ld rd inc exc lfs rfs).performed
      = sync_bidirectional_plan local_files remote_files_raw ld rd inc exc :=
  execBidi_all_safe upF dlF mkF
    (sync_bidirectional_plan local_files remote_files_raw ld rd inc exc) h lfs rfs

theorem walkRemote_ok_of_not_blocked (ent : REnt) :
    ∀ rdir, anyBlocked ent = false → ∃ l, walkRemote rdir ent = .ok l := by
  induction ent with
  | nil => intro rdir _; exact ⟨[], rfl⟩
  | file n m rest ih =>
    intro rdir h
    simp only [anyBlocked] at h
    obtain ⟨l, hl⟩ := ih rdir h
    refine ⟨(pjoin rdir n, m) :: l, ?_⟩
    simp only [walkRemote, hl]
  | dir n ok inside rest ih1 ih2 =>
    intro rdir h
    simp only [anyBlocked, Bool.or_eq_false_iff, Bool.not_eq_false'] at h
    obtain ⟨l1, hl1⟩ := ih1 (pjoin rdir n) h.2.1
    obtain ⟨l2, hl2⟩ := ih2 rdir h.2.2
    refine ⟨l1 ++ l2, ?_⟩
    simp only [walkRemote, h.1, eq_self_iff_true, ite_true, hl1, hl2]

theorem walkRemote_error_of_blocked (ent : REnt) :
    ∀ rdir, anyBlocked ent = true → walkRemote rdir ent = .error .permE := by
  induction ent with
  | nil => intro rdir h; simp [anyBlocked] at h
  | file n m rest ih =>
    intro rdir h
    simp only [anyBlocked] at h
    simp only [walkRemote, ih rdir h]
  | dir n ok inside rest ih1 ih2 =>
    intro rdir h
    simp only [anyBlocked, Bool.or_eq_true] at h
    cases hok : ok with
    | false => simp only [walkRemote, hok, Bool.false_eq_true, if_false]
    | true =>
      rcases h with h | h | h
      · rw [hok] at h; cases h
      · simp only [walkRemote, hok, eq_self_iff_true, ite_true, ih1 (pjoin rdir n) h]
      · cases hin : anyBlocked inside with
        | true => simp only [walkRemote, hok, eq_self_iff_true, ite_true, ih1 (pjoin rdir n) hin]
        | false =>
          obtain ⟨l1, hl1⟩ := walkRemote_ok_of_not_blocked inside (pjoin rdir n) hin
          simp only [walkRemote, hok, eq_self_iff_true, ite_true, hl1, ih2 rdir h]

theorem filesOf_stats (ent : LEnt) (h : allStatsOk ent = true) :
    ∀ x ∈ filesOf ent, x.2.1 = true := by
  induction ent with
  | nil => intro x hx; simp [filesOf] at hx
  | file n st m rest ih =>
    simp only [allStatsOk, Bool.and_eq_true] at h
    intro x hx
    rcases List.mem_cons.mp hx with h1 | h1
    · subst h1; exact h.1
    · exact ih h.2 x h1
  | dir n ok inside rest ih1 ih2 =>
    simp only [allStatsOk, Bool.and_eq_true] at h
    intro x hx
    exact ih2 h.2 x hx

theorem statFiles_ok (relroot : String) (files : List (String × Bool × Meta))
    (h : ∀ x ∈ files, x.2.1 = true) : ∃ l, statFiles relroot files = .ok l := by
  induction files with
  | nil => exact ⟨[], rfl⟩
  | cons x rest ih =>
    obtain ⟨f, st, m⟩ := x
    have hst : st = true := h (f, st, m) (by simp)
    obtain ⟨l, hl⟩ := ih (fun y hy => h y (by simp [hy]))
    refine ⟨(localKey relroot f, m) :: l, ?_⟩
    simp only [statFiles, hst, eq_self_iff_true, ite_true, hl]

theorem processWalk_ok (path : String)
    (l : List (String × List (String × Bool × Meta)))
    (h : ∀ e ∈ l, ∀ x ∈ e.2, x.2.1 = true) : ∃ r, processWalk path l = .ok r := by
  induction l with
  | nil => exact ⟨[], rfl⟩
  | cons e rest ih =>
    obtain ⟨root, files⟩ := e
    obtain ⟨es, hes⟩ := statFiles_ok (relpath root path) files
      (fun x hx => h (root, files) (by simp) x hx)
    obtain ⟨r, hr⟩ := ih (fun e he x hx => h e (by simp [he]) x hx)
    refine ⟨es ++ r, ?_⟩
    simp only [processWalk, hes, hr]

theorem osWalkDirs_stats (ent : LEnt) (h : allStatsOk ent = true) :
    ∀ cur, ∀ e ∈ osWalkDirs cur ent, ∀ x ∈ e.2, x.2.1 = true := by
  induction ent with
  | nil => intro cur e he; simp [osWalkDirs] at he
  | file n st m rest ih =>
    simp only [allStatsOk, Bool.and_eq_true] at h
    intro cur e he
    exact ih h.2 cur e he
  | dir n ok inside rest ih1 ih2 =>
    simp only [allStatsOk, Bool.and_eq_true] at h
    intro cur e he
    simp only [osWalkDirs] at he
    rcases List.mem_append.mp he with h1 | h1
    · cases hok : ok with
      | false => rw [hok] at h1; simp at h1
      | true =>
        rw [hok] at h1
        simp only [eq_self_iff_true, ite_true] at h1
        rcases List.mem_cons.mp h1 with h2 | h2
        · subst h2
          exact fun x hx => filesOf_stats inside h.1 x hx
        · exact ih1 h.1 (pjoin cur n) e h2
    · exact ih2 h.2 cur e h1

theorem list_local_ok (path : String) (rootOk : Bool) (root : LEnt)
    (h : allStatsOk root = true) : ∃ l, list_local path rootOk root = .ok l := by
  unfold list_local osWalk
  cases rootOk with
  | false => exact ⟨[], rfl⟩
  | true =>
    simp only [eq_self_iff_true, ite_true]
    apply processWalk_ok
    intro e he
    rcases List.mem_cons.mp he with h1 | h1
    · subst h1
      exact fun x hx => filesOf_stats root h x hx
    · exact osWalkDirs_stats root h path e h1

/-- C6: when the rename of the uploaded temporary file to the final target
fails, `atomic_upload` removes the pre-existing target and retries the
rename; if the retry also fails it removes the temporary file and
transfers directly to the final path; and if both the rename path and the
direct-put fallback fail, it attempts best-effort cleanup of the
temporary file and surfaces one aggregated error naming both the original
rename failure and the fallback failure. -/
theorem c6_upload_rename_fallback (f : UpFaults) (lfs rfs : FS) (lp rp : String) (c : List Nat) (e1 : PyErr)
    (hres : resolveRemotePath lp rp = rp)
    (hl : fsGet lfs lp = some c)
    (hput : f.put1 = .ok)
    (hren : f.rename1 = .fail e1) :
    (f.rename2 = .ok →
       (atomic_upload f lfs rfs lp rp).events
         = [.putTmpCall, .renameCall, .removeTargetCall, .renameRetryCall] ∧
       (atomic_upload f lfs rfs lp rp).reported = [.uploaded lp rp] ∧
       fsGet (atomic_upload f lfs rfs lp rp).rfs rp = some c ∧
       (atomic_upload f lfs rfs lp rp).raised = none) ∧
    (∀ e2, f.rename2 = .fail e2 → f.putDirect = .ok →
       (atomic_upload f lfs rfs lp rp).events
         = [.putTmpCall, .renameCall, .removeTargetCall, .renameRetryCall,
             .removeTmpCall, .putDirectCall] ∧
       (atomic_upload f lfs rfs lp rp).usedDirectPut = true ∧
       fsGet (atomic_upload f lfs rfs lp rp).rfs rp = some c ∧
       (atomic_upload f lfs rfs lp rp).reported = [] ∧
       (atomic_upload f lfs rfs lp rp).raised = none) ∧
    (∀ e2 e3, f.rename2 = .fail e2 → f.putDirect.errOf = some e3 →
       (atomic_upload f lfs rfs lp rp).events
         = [.putTmpCall, .renameCall, .removeTargetCall, .renameRetryCall,
             .removeTmpCall, .putDirectCall, .removeTmpCall, .removeTmpCall] ∧
       (atomic_upload f lfs rfs lp rp).reported = [.uploadFailed lp rp (.aggE e1 e3)] ∧
       ((f.removeTmpAgg = .ok ∨ f.removeTmpOuter = .ok) →
          fsGet (atomic_upload f lfs rfs lp rp).rfs (rp ++ ".tmp") = none)) := by
  have hne : rp ++ ".tmp" ≠ rp := strAppend_ne rp ".tmp" (by decide)
  have h1 : runPut f.put1 (fsGet lfs lp) rfs (rp ++ ".tmp")
      = (fsSet rfs (rp ++ ".tmp") c, none) := by rw [hl, hput]; rfl
  have htmp1 : fsGet (fsSet rfs (rp ++ ".tmp") c) (rp ++ ".tmp") = some c :=
    fsGet_set_self _ _ _
  have h2 : runRename f.rename1 (fsSet rfs (rp ++ ".tmp") c) (rp ++ ".tmp") rp
      = (fsSet rfs (rp ++ ".tmp") c, some e1) := by
    unfold runRename; rw [htmp1, hren]
  have htmp3 : fsGet (runRemove f.removeTarget (fsSet rfs (rp ++ ".tmp") c) rp).1
      (rp ++ ".tmp") = some c := by
    rw [runRemove_get_ne f.removeTarget _ rp (rp ++ ".tmp") hne]; exact htmp1
  refine ⟨?_, ?_, ?_⟩
  · intro hr2
    have h4 : runRename f.rename2
        (runRemove f.removeTarget (fsSet rfs (rp ++ ".tmp") c) rp).1 (rp ++ ".tmp") rp
        = (fsDel (fsSet (runRemove f.removeTarget (fsSet rfs (rp ++ ".tmp") c) rp).1 rp c)
            (rp ++ ".tmp"), none) := by
      unfold runRename; rw [htmp3, hr2]
    simp only [atomic_upload, hres, h1, h2, h4]
    refine ⟨by trivial, by trivial, ?_, by trivial⟩
    rw [fsGet_del_ne _ _ _ (Ne.symm hne)]
    exact fsGet_set_self _ _ _
  · intro e2 hr2 hpd
    have h4 : runRename f.rename2
        (runRemove f.removeTarget (fsSet rfs (rp ++ ".tmp") c) rp).1 (rp ++ ".tmp") rp
        = ((runRemove f.removeTarget (fsSet rfs (rp ++ ".tmp") c) rp).1, some e2) := by
      unfold runRename; rw [htmp3, hr2]
    have h6 : runPut f.putDirect (fsGet lfs lp)
        (runRemove f.removeTmpPre
          (runRemove f.removeTarget (fsSet rfs (rp ++ ".tmp") c) rp).1 (rp ++ ".tmp")).1 rp
        = (fsSet (runRemove f.removeTmpPre
            (runRemove f.removeTarget (fsSet rfs (rp ++ ".tmp") c) rp).1 (rp ++ ".tmp")).1
            rp c, none) := by
      rw [hl, hpd]; rfl
    simp only [atomic_upload, hres, h1, h2, h4, h6]
    refine ⟨by trivial, by trivial, ?_, by trivial, by trivial⟩
    exact fsGet_set_self _ _ _
  · intro e2 e3 hr2 hpd
    have h4 : runRename f.rename2
        (runRemove f.removeTarget (fsSet rfs (rp ++ ".tmp") c) rp).1 (rp ++ ".tmp") rp
        = ((runRemove f.removeTarget (fsSet rfs (rp ++ ".tmp") c) rp).1, some e2) := by
      unfold runRename; rw [htmp3, hr2]
    cases hcase : f.putDirect with
    | ok => rw [hcase] at hpd; cases hpd
    | fail e3' =>
      have he3 : e3' = e3 := by
        rw [hcase] at hpd
        simpa [PutOutcome.errOf] using hpd
      rw [he3] at hcase
      have h6 : runPut f.putDirect (fsGet lfs lp)
          (runRemove f.removeTmpPre
            (runRemove f.removeTarget (fsSet rfs (rp ++ ".tmp") c) rp).1 (rp ++ ".tmp")).1 rp
          = ((runRemove f.removeTmpPre
              (runRemove f.removeTarget (fsSet rfs (rp ++ ".tmp") c) rp).1 (rp ++ ".tmp")).1,
             some e3) := by
        rw [hl, hcase]; rfl
      simp only [atomic_upload, hres, h1, h2, h4, h6, upOuter]
      refine ⟨by trivial, by trivial, ?_⟩
      rintro (hagg | hout)
      · apply runRemove_none_get_none
        rw [hagg]
        exact runRemove_ok_get_none _ _
      · rw [hout]
        exact runRemove_ok_get_none _ _
    | failPartial e3' k =>
      have he3 : e3' = e3 := by
        rw [hcase] at hpd
        simpa [PutOutcome.errOf] using hpd
      rw [he3] at hcase
      have h6 : runPut f.putDirect (fsGet lfs lp)
          (runRemove f.removeTmpPre
            (runRemove f.removeTarget (fsSet rfs (rp ++ ".tmp") c) rp).1 (rp ++ ".tmp")).1 rp
          = (fsSet (runRemove f.removeTmpPre
              (runRemove f.removeTarget (fsSet rfs (rp ++ ".tmp") c) rp).1 (rp ++ ".tmp")).1
              rp (c.take k),
             some e3) := by
        rw [hl, hcase]; rfl
      simp only [atomic_upload, hres, h1, h2, h4, h6, upOuter]
      refine ⟨by trivial, by trivial, ?_⟩
      rintro (hagg | hout)
      · apply runRemove_none_get_none
        rw [hagg]
        exact runRemove_ok_get_none _ _
      · rw [hout]
        exact runRemove_ok_get_none _ _

/-- In every upload run that never enters the rename-exception handler,
each intermediate remote store shows the destination either with its
initial content or with the complete new content. -/
theorem upload_trace_dest (f : UpFaults) (lfs rfs : FS) (lp rp : String) (c : List Nat)
    (hres : resolveRemotePath lp rp = rp)
    (hl : fsGet lfs lp = some c)
    (herh : (atomic_upload f lfs rfs lp rp).enteredRenameHandler = false) :
    ∀ s ∈ (atomic_upload f lfs rfs lp rp).trace,
      fsGet s rp = fsGet rfs rp ∨ fsGet s rp = some c := by
  have hne : rp ++ ".tmp" ≠ rp := strAppend_ne rp ".tmp" (by decide)
  have hne' : rp ≠ rp ++ ".tmp" := Ne.symm hne
  cases hput : f.put1 with
  | ok =>
    have h1 : runPut f.put1 (fsGet lfs lp) rfs (rp ++ ".tmp")
        = (fsSet rfs (rp ++ ".tmp") c, none) := by rw [hl, hput]; rfl
    have hs1 : fsGet (fsSet rfs (rp ++ ".tmp") c) rp = fsGet rfs rp :=
      fsGet_set_ne _ _ _ _ hne'
    cases hren : f.rename1 with
    | ok =>
      have h2 : runRename f.rename1 (fsSet rfs (rp ++ ".tmp") c) (rp ++ ".tmp") rp
          = (fsDel (fsSet (fsSet rfs (rp ++ ".tmp") c) rp c) (rp ++ ".tmp"), none) := by
        unfold runRename; rw [fsGet_set_self, hren]
      simp only [atomic_upload, hres, h1, h2]
      intro s hs
      simp only [List.mem_cons, List.not_mem_nil, or_false] at hs
      rcases hs with rfl | rfl | rfl
      · exact Or.inl rfl
      · exact Or.inl hs1
      · right
        rw [fsGet_del_ne _ _ _ hne']
        exact fsGet_set_self _ _ _
    | fail e1 =>
      exfalso
      have h2 : runRename f.rename1 (fsSet rfs (rp ++ ".tmp") c) (rp ++ ".tmp") rp
          = (fsSet rfs (rp ++ ".tmp") c, some e1) := by
        unfold runRename; rw [fsGet_set_self, hren]
      simp only [atomic_upload, hres, h1, h2] at herh
      cases h4 : (runRename f.rename2
          (runRemove f.removeTarget (fsSet rfs (rp ++ ".tmp") c) rp).1
          (rp ++ ".tmp") rp).2 with
      | none => simp only [h4] at herh; simp at herh
      | some e4 =>
        simp only [h4] at herh
        cases h6 : (runPut f.putDirect (fsGet lfs lp)
            (runRemove f.removeTmpPre
              (runRename f.rename2
                (runRemove f.removeTarget (fsSet rfs (rp ++ ".tmp") c) rp).1
                (rp ++ ".tmp") rp).1
              (rp ++ ".tmp")).1 rp).2 with
        | none => simp only [h6] at herh; simp at herh
        | some e6 =>
          simp only [h6, upOuter] at herh
          simp at herh
  | fail e =>
    have h1 : runPut f.put1 (fsGet lfs lp) rfs (rp ++ ".tmp") = (rfs, some e) := by
      rw [hl, hput]; rfl
    simp only [atomic_upload, hres, h1, upOuter]
    cases e <;> intro s hs <;>
      simp only [List.cons_append, List.nil_append, List.mem_cons,
        List.not_mem_nil, or_false] at hs
    case fnfE => rcases hs with rfl | rfl <;> exact Or.inl rfl
    case permE => rcases hs with rfl | rfl <;> exact Or.inl rfl
    all_goals
      rcases hs with rfl | rfl | rfl
    all_goals
      try exact Or.inl rfl
    all_goals
      exact Or.inl (runRemove_get_ne _ _ _ _ hne')
  | failPartial e k =>
    have h1 : runPut f.put1 (fsGet lfs lp) rfs (rp ++ ".tmp")
        = (fsSet rfs (rp ++ ".tmp") (c.take k), some e) := by
      rw [hl, hput]; rfl
    have hs1 : fsGet (fsSet rfs (rp ++ ".tmp") (c.take k)) rp = fsGet rfs rp :=
      fsGet_set_ne _ _ _ _ hne'
    simp only [atomic_upload, hres, h1, upOuter]
    cases e <;> intro s hs <;>
      simp only [List.cons_append, List.nil_append, List.mem_cons,
        List.not_mem_nil, or_false] at hs
    case fnfE => rcases hs with rfl | rfl
                 · exact Or.inl rfl
                 · exact Or.inl hs1
    case permE => rcases hs with rfl | rfl
                  · exact Or.inl rfl
                  · exact Or.inl hs1
    all_goals
      rcases hs with rfl | rfl | rfl
    all_goals
      try exact Or.inl rfl
    all_goals
      try exact Or.inl hs1
    all_goals
      refine Or.inl ?_
      rw [runRemove_get_ne _ _ _ _ hne']
      exact hs1

/-- In every download run, each intermediate local store shows the
destination either with its initial content or with the complete new
content: writes go only to the sibling temporary path, and the
destination changes only through `os.replace`. -/
theorem download_trace_dest (f : DlFaults) (rfs lfs : FS) (rp lp : String) (rc : List Nat)
    (hres : resolveLocalPath f.isDirLocal rp lp = lp)
    (hget : fsGet rfs rp = some rc) :
    ∀ s ∈ (atomic_download f rfs lfs rp lp).trace,
      fsGet s lp = fsGet lfs lp ∨ fsGet s lp = some rc := by
  have hne : lp ++ ".tmp" ≠ lp := strAppend_ne lp ".tmp" (by decide)
  have hne' : lp ≠ lp ++ ".tmp" := Ne.symm hne
  cases hmd : (if dirname lp ≠ "" ∧ dirname lp ≠ "." then
      (match f.makedirs with | .ok => none | .fail e => some e) else (none : Option PyErr)) with
  | some e =>
    simp only [atomic_download, hres, hmd, dlOuter]
    cases e <;> intro s hs <;>
      simp only [List.cons_append, List.nil_append, List.mem_cons,
        List.not_mem_nil, or_false] at hs
    case fnfE => rcases hs with rfl; exact Or.inl rfl
    case permE => rcases hs with rfl; exact Or.inl rfl
    all_goals rcases hs with rfl | rfl
    all_goals try exact Or.inl rfl
    all_goals exact Or.inl (runRemove_get_ne _ _ _ _ hne')
  | none =>
    cases hg : f.get1 with
    | ok =>
      have h1 : runGet f.get1 rfs lfs rp (lp ++ ".tmp")
          = (fsSet lfs (lp ++ ".tmp") rc, none) := by
        unfold runGet; rw [hget, hg]; rfl
      have hs1 : fsGet (fsSet lfs (lp ++ ".tmp") rc) lp = fsGet lfs lp :=
        fsGet_set_ne _ _ _ _ hne'
      cases hr : f.replace1 with
      | ok =>
        have h2 : runRename f.replace1 (fsSet lfs (lp ++ ".tmp") rc) (lp ++ ".tmp") lp
            = (fsDel (fsSet (fsSet lfs (lp ++ ".tmp") rc) lp rc) (lp ++ ".tmp"), none) := by
          unfold runRename; rw [fsGet_set_self, hr]
        simp only [atomic_download, hres, hmd, h1, h2]
        intro s hs
        simp only [List.mem_cons, List.not_mem_nil, or_false] at hs
        rcases hs with rfl | rfl | rfl
        · exact Or.inl rfl
        · exact Or.inl hs1
        · right
          rw [fsGet_del_ne _ _ _ hne']
          exact fsGet_set_self _ _ _
      | fail e =>
        have h2 : runRename f.replace1 (fsSet lfs (lp ++ ".tmp") rc) (lp ++ ".tmp") lp
            = (fsSet lfs (lp ++ ".tmp") rc, some e) := by
          unfold runRename; rw [fsGet_set_self, hr]
        simp only [atomic_download, hres, hmd, h1, h2, dlOuter]
        cases e <;> intro s hs <;>
          simp only [List.cons_append, List.nil_append, List.mem_cons,
            List.not_mem_nil, or_false] at hs
        case fnfE => rcases hs with rfl | rfl | rfl
                     · exact Or.inl rfl
                     · exact Or.inl hs1
                     · exact Or.inl hs1
        case permE => rcases hs with rfl | rfl | rfl
                      · exact Or.inl rfl
                      · exact Or.inl hs1
                      · exact Or.inl hs1
        all_goals rcases hs with rfl | rfl | rfl | rfl
        all_goals try exact Or.inl rfl
        all_goals try exact Or.inl hs1
        all_goals
          refine Or.inl ?_
          rw [runRemove_get_ne _ _ _ _ hne']
          exact hs1
    | fail e =>
      have h1 : runGet f.get1 rfs lfs rp (lp ++ ".tmp") = (lfs, some e) := by
        unfold runGet; rw [hget, hg]; rfl
      simp only [atomic_download, hres, hmd, h1, dlOuter]
      cases e <;> intro s hs <;>
        simp only [List.cons_append, List.nil_append, List.mem_cons,
          List.not_mem_nil, or_false] at hs
      case fnfE => rcases hs with rfl | rfl <;> exact Or.inl rfl
      case permE => rcases hs with rfl | rfl <;> exact Or.inl rfl
      all_goals rcases hs with rfl | rfl | rfl
      all_goals try exact Or.inl rfl
      all_goals exact Or.inl (runRemove_get_ne _ _ _ _ hne')
    | failPartial e k =>
      have h1 : runGet f.get1 rfs lfs rp (lp ++ ".tmp")
          = (fsSet lfs (lp ++ ".tmp") (rc.take k), some e) := by
        unfold runGet; rw [hget, hg]; rfl
      have hs1 : fsGet (fsSet lfs (lp ++ ".tmp") (rc.take k)) lp = fsGet lfs lp :=
        fsGet_set_ne _ _ _ _ hne'
      simp only [atomic_download, hres, hmd, h1, dlOuter]
      cases e <;> intro s hs <;>
        simp only [List.cons_append, List.nil_append, List.mem_cons,
          List.not_mem_nil, or_false] at hs
      case fnfE => rcases hs with rfl | rfl
                   · exact Or.inl rfl
                   · exact Or.inl hs1
      case permE => rcases hs with rfl | rfl
                    · exact Or.inl rfl
                    · exact Or.inl hs1
      all_goals rcases hs with rfl | rfl | rfl
      all_goals try exact Or.inl rfl
      all_goals try exact Or.inl hs1
      all_goals
        refine Or.inl ?_
        rw [runRemove_get_ne _ _ _ _ hne']
        exact hs1

/-- C1: in bidirectional sync, for a path key present in both tree
mappings that passes the pattern filter: a modification-time difference of
at most 5 seconds is a conflict — the planned (and only) action downloads
the remote version to the sibling `.remote` path, leaving the local
original untouched and uploading nothing; a local mtime more than 5
seconds ahead plans an upload; a remote mtime more than 5 seconds ahead
plans a download that overwrites the local file. -/
theorem c1_bidirectional_mtime_rule (inc exc : List String) (ld rd rel : String) (lm rm : Meta)
    (local_files remote_files_raw : List (String × Meta)) (lfs rfs : FS) (rc : List Nat)
    (hfilter : pullSkips inc exc (basename rel) = false)
    (hl : List.lookup rel local_files = some lm)
    (hr : List.lookup rel (rekeyRemote remote_files_raw (rstripSlashes rd)) = some rm)
    (hrc : fsGet rfs (pjoin (rstripSlashes rd) rel) = some rc)
    (hres1 : resolveLocalPath false (pjoin (rstripSlashes rd) rel)
        (pjoin ld rel ++ ".remote") = pjoin ld rel ++ ".remote")
    (hres2 : resolveLocalPath false (pjoin (rstripSlashes rd) rel)
        (pjoin ld rel) = pjoin ld rel) :
    ((lm.mtime - rm.mtime).natAbs ≤ 5 →
       bidiStep inc exc ld (rstripSlashes rd) rel (some lm) (some rm)
         = some (.confl (pjoin (rstripSlashes rd) rel) (pjoin ld rel)) ∧
       (rel, BAct.confl (pjoin (rstripSlashes rd) rel) (pjoin ld rel))
         ∈ sync_bidirectional_plan local_files remote_files_raw ld rd inc exc ∧
       (∀ a, (rel, a) ∈ sync_bidirectional_plan local_files remote_files_raw ld rd inc exc →
          a = BAct.confl (pjoin (rstripSlashes rd) rel) (pjoin ld rel)) ∧
       fsGet (atomic_download cleanDl rfs lfs (pjoin (rstripSlashes rd) rel)
           (pjoin ld rel ++ ".remote")).lfs (pjoin ld rel)
         = fsGet lfs (pjoin ld rel) ∧
       fsGet (atomic_download cleanDl rfs lfs (pjoin (rstripSlashes rd) rel)
           (pjoin ld rel ++ ".remote")).lfs (pjoin ld rel ++ ".remote") = some rc ∧
       (atomic_download cleanDl rfs lfs (pjoin (rstripSlashes rd) rel)
           (pjoin ld rel ++ ".remote")).raised = none) ∧
    (lm.mtime > rm.mtime + 5 →
       bidiStep inc exc ld (rstripSlashes rd) rel (some lm) (some rm)
         = some (.up (pjoin ld rel) (pjoin (rstripSlashes rd) rel))) ∧
    (rm.mtime > lm.mtime + 5 →
       bidiStep inc exc ld (rstripSlashes rd) rel (some lm) (some rm)
         = some (.down (pjoin (rstripSlashes rd) rel) (pjoin ld rel)) ∧
       fsGet (atomic_download cleanDl rfs lfs (pjoin (rstripSlashes rd) rel)
           (pjoin ld rel)).lfs (pjoin ld rel) = some rc) := by
  have hnremote : pjoin ld rel ≠ pjoin ld rel ++ ".remote" :=
    Ne.symm (strAppend_ne _ ".remote" (by decide))
  have hlen11 : ((pjoin ld rel ++ ".remote") ++ ".tmp").data.length
      = (pjoin ld rel).data.length + 11 := by
    rw [strLen_append, strLen_append]
    have h7 : (".remote" : String).data.length = 7 := rfl
    have h4 : (".tmp" : String).data.length = 4 := rfl
    omega
  have hntmp : pjoin ld rel ≠ (pjoin ld rel ++ ".remote") ++ ".tmp" :=
    strNe_of_len _ _ (by rw [hlen11]; omega)
  have hrtmp : pjoin ld rel ++ ".remote" ≠ (pjoin ld rel ++ ".remote") ++ ".tmp" :=
    Ne.symm (strAppend_ne _ ".tmp" (by decide))
  have hd1 := atomic_download_clean rfs lfs (pjoin (rstripSlashes rd) rel)
    (pjoin ld rel ++ ".remote") rc hres1 hrc
  have hd2 := atomic_download_clean rfs lfs (pjoin (rstripSlashes rd) rel)
    (pjoin ld rel) rc hres2 hrc
  refine ⟨?_, ?_, ?_⟩
  · intro ht
    have hstep : bidiStep inc exc ld (rstripSlashes rd) rel (some lm) (some rm)
        = some (.confl (pjoin (rstripSlashes rd) rel) (pjoin ld rel)) := by
      simp only [bidiStep, hfilter, Bool.false_eq_true, if_false]
      rw [if_pos ht]
    refine ⟨hstep, ?_, ?_, ?_, ?_, ?_⟩
    · have hkey : rel ∈ local_files.map Prod.fst := lookup_mem_keys rel lm local_files hl
      have hmemall : rel ∈ dedupAcc []
          (local_files.map Prod.fst
            ++ (rekeyRemote remote_files_raw (rstripSlashes rd)).map Prod.fst) :=
        mem_dedupAcc rel _ [] (List.mem_append.mpr (Or.inl hkey)) rfl
      simp only [sync_bidirectional_plan, List.mem_filterMap]
      exact ⟨rel, hmemall, by rw [hl, hr, hstep]; rfl⟩
    · intro a ha
      simp only [sync_bidirectional_plan, List.mem_filterMap] at ha
      obtain ⟨x, hx, hgx⟩ := ha
      rw [Option.map_eq_some'] at hgx
      obtain ⟨b, hb, heq⟩ := hgx
      have hx1 : x = rel := (Prod.mk.injEq _ _ _ _).mp heq |>.1
      have hb1 : b = a := (Prod.mk.injEq _ _ _ _).mp heq |>.2
      subst hx1
      rw [hl, hr, hstep] at hb
      cases hb
      exact hb1.symm
    · rw [hd1]
      rw [fsGet_del_ne _ _ _ hntmp, fsGet_set_ne _ _ _ _ hnremote,
        fsGet_set_ne _ _ _ _ hntmp]
    · rw [hd1]
      rw [fsGet_del_ne _ _ _ hrtmp, fsGet_set_self]
    · rw [hd1]
  · intro hb
    simp only [bidiStep, hfilter, Bool.false_eq_true, if_false]
    rw [if_neg (by omega), if_pos (by omega)]
  · intro hb
    constructor
    · simp only [bidiStep, hfilter, Bool.false_eq_true, if_false]
      rw [if_neg (by omega), if_neg (by omega)]
    · rw [hd2]
      rw [fsGet_del_ne _ _ _ (Ne.symm (strAppend_ne _ ".tmp" (by decide))), fsGet_set_self]

/-! ## Claim C9 -/

/-- C9: round-trip — uploading a file and then downloading it back with no
intervening changes yields content byte-identical to the original and
leaves no residual `.tmp` file on either the local or the remote side. -/
theorem c9_round_trip (lfs rfs : FS) (lp rp lp2 : String) (c : List Nat)
    (hl : fsGet lfs lp = some c)
    (hrp : resolveRemotePath lp rp = rp)
    (hlp2 : resolveLocalPath false rp lp2 = lp2) :
    fsGet (atomic_download cleanDl (atomic_upload cleanUp lfs rfs lp rp).rfs lfs rp lp2).lfs
        lp2 = some c ∧
    fsGet (atomic_download cleanDl (atomic_upload cleanUp lfs rfs lp rp).rfs lfs rp lp2).lfs
        (lp2 ++ ".tmp") = none ∧
    fsGet (atomic_upload cleanUp lfs rfs lp rp).rfs (rp ++ ".tmp") = none ∧
    (atomic_upload cleanUp lfs rfs lp rp).raised = none ∧
    (atomic_download cleanDl (atomic_upload cleanUp lfs rfs lp rp).rfs lfs rp lp2).raised
      = none := by
  have hu := atomic_upload_clean lfs rfs lp rp c hrp hl
  have hrpne : rp ≠ rp ++ ".tmp" := (strAppend_ne rp ".tmp" (by decide)).symm
  have hget : fsGet (atomic_upload cleanUp lfs rfs lp rp).rfs rp = some c := by
    simp only [hu]
    rw [fsGet_del_ne _ _ _ hrpne, fsGet_set_self]
  have hd := atomic_download_clean (atomic_upload cleanUp lfs rfs lp rp).rfs lfs rp lp2 c
    hlp2 hget
  have hlp2ne : lp2 ≠ lp2 ++ ".tmp" := (strAppend_ne lp2 ".tmp" (by decide)).symm
  refine ⟨?_, ?_, ?_, ?_, ?_⟩
  · simp only [hd]
    rw [fsGet_del_ne _ _ _ hlp2ne, fsGet_set_self]
  · simp only [hd]
    exact fsGet_del_self _ _
  · simp only [hu]
    exact fsGet_del_self _ _
  · simp only [hu]
  · simp only [hd]

/-- Witness for C9 at a concrete round trip. -/
theorem c9_round_trip_witness :
    fsGet [("loc/a.txt", [1, 2])] "loc/a.txt" = some [1, 2] ∧
    fsGet (atomic_download cleanDl
        (atomic_upload cleanUp [("loc/a.txt", [1, 2])] [] "loc/a.txt" "rem/a.txt").rfs
        [("loc/a.txt", [1, 2])] "rem/a.txt" "back/a.txt").lfs "back/a.txt" = some [1, 2] ∧
    fsGet (atomic_upload cleanUp [("loc/a.txt", [1, 2])] [] "loc/a.txt" "rem/a.txt").rfs
      ("rem/a.txt" ++ ".tmp") = none :=
  ⟨by decide,
    (c9_round_trip [("loc/a.txt", [1, 2])] [] "loc/a.txt" "rem/a.txt" "back/a.txt" [1, 2]
      (by decide) (by decide) (by decide)).1,
    (c9_round_trip [("loc/a.txt", [1, 2])] [] "loc/a.txt" "rem/a.txt" "back/a.txt" [1, 2]
      (by decide) (by decide) (by decide)).2.2.1⟩

/-! ## Claim C3 -/

/-- C3 counterexample: a download whose remote source is missing — one of
the claim's "expected failure categories" — is merely reported: nothing is
raised to the caller, and a stale temporary file is not removed.  The
claim says every failing download removes the temporary file and raises. -/
theorem c3_download_counterexample :
    (atomic_download cleanDl [] [("l/a.txt.tmp", [7])] "r/a.txt" "l/a.txt").raised = none ∧
    (atomic_download cleanDl [] [("l/a.txt.tmp", [7])] "r/a.txt" "l/a.txt").reported
      = [.remoteNotFound "r/a.txt"] ∧
    fsGet (atomic_download cleanDl [] [("l/a.txt.tmp", [7])] "r/a.txt" "l/a.txt").lfs
      "l/a.txt.tmp" = some [7] := by
  decide

/-- C3 (amended): a download failing with an error other than
remote-file-missing or permission-denied removes the temporary file and
raises a wrapping `RuntimeError`; remote-missing and permission-denied
failures are reported and swallowed — the function returns normally
without raising and without removing the temporary file. -/
theorem c3_download_error_policy (f : DlFaults) (rfs lfs : FS) (rp lp : String)
    (rc : List Nat) (e : PyErr) (k : Nat)
    (hres : resolveLocalPath f.isDirLocal rp lp = lp)
    (hmk : f.makedirs = .ok) :
    (fsGet rfs rp = some rc → f.get1 = .failPartial e k → e ≠ .fnfE → e ≠ .permE →
       f.removeTmpDl = .ok →
       (atomic_download f rfs lfs rp lp).raised = some (.dlWrapE e) ∧
       fsGet (atomic_download f rfs lfs rp lp).lfs (lp ++ ".tmp") = none) ∧
    (fsGet rfs rp = some rc → f.get1 = .ok → f.replace1 = .fail e → e ≠ .fnfE → e ≠ .permE →
       f.removeTmpDl = .ok →
       (atomic_download f rfs lfs rp lp).raised = some (.dlWrapE e) ∧
       fsGet (atomic_download f rfs lfs rp lp).lfs (lp ++ ".tmp") = none) ∧
    (fsGet rfs rp = none → f.get1 = .ok →
       (atomic_download f rfs lfs rp lp).raised = none ∧
       (atomic_download f rfs lfs rp lp).reported = [.remoteNotFound rp]) ∧
    (fsGet rfs rp = some rc → f.get1 = .fail .permE →
       (atomic_download f rfs lfs rp lp).raised = none ∧
       (atomic_download f rfs lfs rp lp).reported = [.permDeniedDl rp]) := by
  have hmd : (if dirname lp ≠ "" ∧ dirname lp ≠ "." then
      (match f.makedirs with | .ok => none | .fail e => some e) else none)
        = (none : Option PyErr) := by
    rw [hmk]; exact ite_self none
  refine ⟨?_, ?_, ?_, ?_⟩
  · intro hrc hg he1 he2 hrm
    simp only [atomic_download, hres, hmd, runGet, runPut, hrc, hg]
    unfold dlOuter
    cases e with
    | fnfE => exact absurd rfl he1
    | permE => exact absurd rfl he2
    | ioE => exact ⟨rfl, by rw [hrm]; exact runRemove_ok_get_none _ _⟩
    | genE t => exact ⟨rfl, by rw [hrm]; exact runRemove_ok_get_none _ _⟩
    | nameE => exact ⟨rfl, by rw [hrm]; exact runRemove_ok_get_none _ _⟩
    | aggE a b => exact ⟨rfl, by rw [hrm]; exact runRemove_ok_get_none _ _⟩
    | dlWrapE a => exact ⟨rfl, by rw [hrm]; exact runRemove_ok_get_none _ _⟩
  · intro hrc hg hr he1 he2 hrm
    have htmp : fsGet (fsSet lfs (lp ++ ".tmp") rc) (lp ++ ".tmp") = some rc :=
      fsGet_set_self _ _ _
    simp only [atomic_download, hres, hmd, runGet, runPut, runRename, hrc, hg, hr, htmp]
    unfold dlOuter
    cases e with
    | fnfE => exact absurd rfl he1
    | permE => exact absurd rfl he2
    | ioE => exact ⟨rfl, by rw [hrm]; exact runRemove_ok_get_none _ _⟩
    | genE t => exact ⟨rfl, by rw [hrm]; exact runRemove_ok_get_none _ _⟩
    | nameE => exact ⟨rfl, by rw [hrm]; exact runRemove_ok_get_none _ _⟩
    | aggE a b => exact ⟨rfl, by rw [hrm]; exact runRemove_ok_get_none _ _⟩
    | dlWrapE a => exact ⟨rfl, by rw [hrm]; exact runRemove_ok_get_none _ _⟩
  · intro hrc hg
    simp only [atomic_download, hres, hmd, runGet, runPut, hrc, hg]
    exact ⟨rfl, rfl⟩
  · intro hrc hg
    simp only [atomic_download, hres, hmd, runGet, runPut, hrc, hg]
    exact ⟨rfl, rfl⟩

/-- Witness for C3's amended theorem: the swallowed remote-missing case
and the raising generic case, at concrete inputs. -/
theorem c3_download_error_policy_witness :
    resolveLocalPath cleanDl.isDirLocal "r/a.txt" "l/a.txt" = "l/a.txt" ∧
    ((atomic_download cleanDl [] [] "r/a.txt" "l/a.txt").raised = none ∧
      (atomic_download cleanDl [] [] "r/a.txt" "l/a.txt").reported
        = [.remoteNotFound "r/a.txt"]) ∧
    ((atomic_download { cleanDl with get1 := .failPartial (.genE 5) 1 }
        [("r/a.txt", [1, 2])] [] "r/a.txt" "l/a.txt").raised
      = some (.dlWrapE (.genE 5)) ∧
     fsGet (atomic_download { cleanDl with get1 := .failPartial (.genE 5) 1 }
        [("r/a.txt", [1, 2])] [] "r/a.txt" "l/a.txt").lfs ("l/a.txt" ++ ".tmp") = none) :=
  ⟨by decide,
    (c3_download_error_policy cleanDl [] [] "r/a.txt" "l/a.txt" [0] (.genE 0) 0
      (by decide) (by decide)).2.2.1 (by decide) (by decide),
    (c3_download_error_policy { cleanDl with get1 := .failPartial (.genE 5) 1 }
      [("r/a.txt", [1, 2])] [] "r/a.txt" "l/a.txt" [1, 2] (.genE 5) 1
      (by decide) (by decide)).1 (by decide) (by decide) (by decide) (by decide)
      (by decide)⟩

/-! ## Claim C2 -/

/-- C2 counterexample: with include `["notes/*"]` the full relative path
`notes/plan.txt` matches the include pattern — under the claimed rule
(spec §4.2, `specIncluded`) the path is a candidate — yet `sync_pull`
never attempts it and `sync_bidirectional` plans nothing for it, because
both test only the basename `plan.txt`. -/
theorem c2_filter_counterexample :
    fnmatch "notes/plan.txt" "notes/*" = true ∧
    specIncluded ["notes/*"] [] "notes/plan.txt" = true ∧
    (sync_pull (fun _ => cleanDl) [("rem/notes/plan.txt", ⟨1, 1, 0⟩)] "rem" "loc"
        ["notes/*"] [] [("rem/notes/plan.txt", [3])] []).attempted = [] ∧
    bidiStep ["notes/*"] [] "loc" "rem" "notes/plan.txt"
      (some ⟨1, 1, 0⟩) (some ⟨1, 1, 0⟩) = none := by
  decide

/-- C2 (amended): `sync_pull` and `sync_bidirectional` test only the
BASENAME against the include/exclude patterns (the full relative path is
never consulted there); an empty include list admits everything and
exclude still overrides include, but both on basenames.  The spec's
concrete example behaves as claimed only because those patterns are
decided by the basename alone.  (`sync_push` computes a
basename-or-full-path filter but trips an unbound name and never applies
the result — claim C10.) -/
theorem c2_filter_basename_only :
    (∀ (f : String → DlFaults) (rp : String) (m : Meta) (inc exc : List String)
        (rd ld : String) (rfs lfs : FS),
      (sync_pull f [(rp, m)] rd ld inc exc rfs lfs).attempted
        = if pullSkips inc exc (basename rp) = true then [] else [rp]) ∧
    (∀ (inc exc : List String) (fname : String),
      pullSkips inc exc fname = false ↔
        ((inc = [] ∨ inc.any (fun pat => fnmatch fname pat) = true) ∧
          exc.any (fun pat => fnmatch fname pat) = false)) ∧
    (∀ (inc exc : List String) (ld rdS rel : String) (lm rm : Option Meta),
      pullSkips inc exc (basename rel) = true →
        bidiStep inc exc ld rdS rel lm rm = none) ∧
    (∀ (inc exc : List String) (ld rdS rel : String) (lm rm : Meta),
      pullSkips inc exc (basename rel) = false →
        bidiStep inc exc ld rdS rel (some lm) (some rm) ≠ none) ∧
    (pullSkips ["*.txt"] ["secret*"] (basename "notes/secret.txt") = true ∧
     pullSkips ["*.txt"] ["secret*"] (basename "notes/plan.txt") = false ∧
     pullSkips ["*.txt"] ["secret*"] (basename "notes/plan.md") = true) :=
  ⟨pull_single_attempted, pullSkips_false_iff, bidiStep_skips, bidiStep_present, by decide⟩

/-- Witness for C2's amended theorem at a concrete skipped path. -/
theorem c2_filter_basename_only_witness :
    pullSkips ["*.txt"] [] (basename "x.md") = true ∧
    bidiStep ["*.txt"] [] "loc" "rem" "x.md" (some ⟨1, 1, 0⟩) none = none :=
  ⟨by decide,
    c2_filter_basename_only.2.2.1 ["*.txt"] [] "loc" "rem" "x.md"
      (some ⟨1, 1, 0⟩) none (by decide)⟩

/-! ## Claim C10 -/

/-- C10 counterexample: a push with the non-empty include list `["*"]`
over a non-empty tree completes with no `NameError` and transfers its
file — because `fnmatch(fname, pat)` short-circuits the `or` before the
unbound `rel_path` is ever evaluated.  The claim says every such filtered
push raises `NameError` before the first transfer and never completes. -/
theorem c10_push_counterexample :
    (sync_push (fun _ => cleanUp) [("a.txt", ⟨1, 1, 0⟩)] "l" "r" ["*"] []
        [("l/a.txt", [1])] []).raised = none ∧
    (sync_push (fun _ => cleanUp) [("a.txt", ⟨1, 1, 0⟩)] "l" "r" ["*"] []
        [("l/a.txt", [1])] []).attempted = ["a.txt"] ∧
    fsGet (sync_push (fun _ => cleanUp) [("a.txt", ⟨1, 1, 0⟩)] "l" "r" ["*"] []
        [("l/a.txt", [1])] []).rfs "r/a.txt" = some [1] := by
  decide

/-- C10 (amended): the unbound `rel_path` is reached — raising
`NameError` and aborting the push — exactly when a file's basename fails
to match the FIRST include pattern, or (having passed the include check)
fails to match the FIRST exclude pattern; short-circuit evaluation hides
it otherwise.  Moreover the computed `should_include` flag is never
consulted, so a push that raises no `NameError` uploads every scanned
file — filtering never skips anything. -/
theorem c10_push_nameerror :
    (∀ (fname : String) (inc exc : List String),
      pushFilterEval fname inc exc = .error .nameE ↔
        ((∃ p ps, inc = p :: ps ∧ fnmatch fname p = false) ∨
         ((inc = [] ∨ ∃ p ps, inc = p :: ps ∧ fnmatch fname p = true) ∧
          ∃ q qs, exc = q :: qs ∧ fnmatch fname q = false))) ∧
    (∀ (fts : String → UpFaults) (files : List (String × Meta)) (ld rd : String)
        (inc exc : List String) (lfs : FS),
      ∀ rfs, (sync_push fts files ld rd inc exc lfs rfs).raised = none →
        (sync_push fts files ld rd inc exc lfs rfs).attempted = files.map Prod.fst) ∧
    ((sync_push (fun _ => cleanUp) [("a.md", ⟨1, 1, 0⟩), ("b.txt", ⟨1, 1, 0⟩)]
        "l" "r" ["*.txt"] [] [("l/a.md", [1]), ("l/b.txt", [2])] []).raised
      = some .nameE ∧
     (sync_push (fun _ => cleanUp) [("a.md", ⟨1, 1, 0⟩), ("b.txt", ⟨1, 1, 0⟩)]
        "l" "r" ["*.txt"] [] [("l/a.md", [1]), ("l/b.txt", [2])] []).attempted = []) :=
  ⟨pushFilterEval_nameError_iff, sync_push_no_filtering, by decide⟩

/-- Witness for C10's amended theorem: a push whose filter raises no
`NameError` attempts every file. -/
theorem c10_push_nameerror_witness :
    (sync_push (fun _ => cleanUp) [("a.txt", ⟨1, 1, 0⟩)] "l" "r" ["*"] []
        [("l/a.txt", [1])] []).raised = none ∧
    (sync_push (fun _ => cleanUp) [("a.txt", ⟨1, 1, 0⟩)] "l" "r" ["*"] []
        [("l/a.txt", [1])] []).attempted
      = [("a.txt", (⟨1, 1, 0⟩ : Meta))].map Prod.fst :=
  ⟨by decide,
    c10_push_nameerror.2.1 (fun _ => cleanUp) [("a.txt", ⟨1, 1, 0⟩)] "l" "r" ["*"] []
      [("l/a.txt", [1])] [] (by decide)⟩

/-! ## Claim C4 -/

/-- C4 counterexample: in a two-file pull the first file's download fails
with a generic error; `atomic_download` raises a `RuntimeError` that
`sync_pull` does not catch — the line-188 `os.makedirs` succeeds for every
file, so nothing else can interfere — and the run aborts: the second file
is never attempted.  The claim says a single bad file never aborts the
run. -/
theorem c4_abort_counterexample :
    (sync_pull_run (fun p => if p = "rem/a"
          then ⟨.ok, { cleanDl with get1 := .fail (.genE 0) }⟩ else ⟨.ok, cleanDl⟩)
        [("rem/a", ⟨1, 1, 0⟩), ("rem/b", ⟨1, 1, 0⟩)] "rem" "loc" [] []
        [("rem/a", [1]), ("rem/b", [2])] []).raised = some (.dlWrapE (.genE 0)) ∧
    (sync_pull_run (fun p => if p = "rem/a"
          then ⟨.ok, { cleanDl with get1 := .fail (.genE 0) }⟩ else ⟨.ok, cleanDl⟩)
        [("rem/a", ⟨1, 1, 0⟩), ("rem/b", ⟨1, 1, 0⟩)] "rem" "loc" [] []
        [("rem/a", [1]), ("rem/b", [2])] []).attempted = ["rem/a"] := by
  decide

/-- C4 (amended): upload failures are contained — `atomic_upload` never
raises, so a push whose per-file filter evaluates and whose remote-directory
block completes attempts every file, and the upload half of a bidirectional
run continues past bad files; downloads that fail only in the swallowed
categories let a pull process every non-skipped path (given its line-188
`os.makedirs` completes) and let a bidirectional run perform its whole
plan; but a download failing with any other error raises out of
`atomic_download`, and neither `sync_pull` nor `sync_bidirectional`
catches it: the run aborts with the remaining paths unprocessed — as do
the uncaught directory-creation steps (a non-`IOError` in `sync_push`'s
lines 162-171 block, `sync_pull`'s line-188 `os.makedirs`,
`sync_bidirectional`'s line-222 `os.makedirs`), each aborting before its
transfer is attempted. -/
theorem c4_per_file_failure_policy :
    (∀ (f : UpFaults) (lfs rfs : FS) (lp rp : String),
      (atomic_upload f lfs rfs lp rp).raised = none) ∧
    (∀ (fts : String → PushFaults) (files : List (String × Meta)) (ld rd : String)
        (inc exc : List String) (lfs : FS),
      ∀ rfs, (sync_push_run fts files ld rd inc exc lfs rfs).raised = none →
        (sync_push_run fts files ld rd inc exc lfs rfs).attempted = files.map Prod.fst) ∧
    (∀ (fts : String → PushFaults) (rel : String) (m : Meta)
        (rest : List (String × Meta)) (ld rd : String) (inc exc : List String)
        (lfs rfs : FS) (e : PyErr) (b : Bool),
      pushFilterEval (basename rel) inc exc = .ok b →
      (fts rel).dirs = .fail e →
      (sync_push_run fts ((rel, m) :: rest) ld rd inc exc lfs rfs).raised = some e ∧
      (sync_push_run fts ((rel, m) :: rest) ld rd inc exc lfs rfs).attempted = []) ∧
    (∀ (fts : String → PullFaults) (remote_files : List (String × Meta))
        (rd ld : String) (inc exc : List String) (rfs : FS),
      (∀ p ∈ remote_files.map Prod.fst, (fts p).mkd = .ok) →
      (∀ p ∈ remote_files.map Prod.fst, ∀ lfs',
        (atomic_download (fts p).dl rfs lfs' p
          (pjoin ld (relpath p (rstripSlashes rd)))).raised = none) →
      ∀ lfs, (sync_pull_run fts remote_files rd ld inc exc rfs lfs).raised = none ∧
        (sync_pull_run fts remote_files rd ld inc exc rfs lfs).attempted
          = remote_files.filterMap (fun e =>
              if pullSkips inc exc (basename e.1) = true then none else some e.1)) ∧
    (∀ (fts : String → PullFaults) (rp : String) (m : Meta)
        (rest : List (String × Meta)) (rd ld : String) (inc exc : List String)
        (rfs lfs : FS) (e : PyErr),
      pullSkips inc exc (basename rp) = false →
      (fts rp).mkd = .ok →
      (atomic_download (fts rp).dl rfs lfs rp
          (pjoin ld (relpath rp (rstripSlashes rd)))).raised = some e →
      (sync_pull_run fts ((rp, m) :: rest) rd ld inc exc rfs lfs).raised = some e ∧
      (sync_pull_run fts ((rp, m) :: rest) rd ld inc exc rfs lfs).attempted = [rp]) ∧
    (∀ (fts : String → PullFaults) (rp : String) (m : Meta)
        (rest : List (String × Meta)) (rd ld : String) (inc exc : List String)
        (rfs lfs : FS) (e : PyErr),
      pullSkips inc exc (basename rp) = false →
      (fts rp).mkd = .fail e →
      (sync_pull_run fts ((rp, m) :: rest) rd ld inc exc rfs lfs).raised = some e ∧
      (sync_pull_run fts ((rp, m) :: rest) rd ld inc exc rfs lfs).attempted = []) ∧
    (∀ (upF : String → UpFaults) (dlF : String → DlFaults) (mkF : String → Outcome)
        (local_files remote_files_raw : List (String × Meta)) (ld rd : String)
        (inc exc : List String) (lfs rfs : FS),
      (∀ pa ∈ sync_bidirectional_plan local_files remote_files_raw ld rd inc exc,
        bidiActSafe dlF mkF pa) →
      (sync_bidirectional upF dlF mkF local_files remote_files_raw ld rd inc exc
          lfs rfs).raised = none ∧
      (sync_bidirectional upF dlF mkF local_files remote_files_raw ld rd inc exc
          lfs rfs).performed
        = sync_bidirectional_plan local_files remote_files_raw ld rd inc exc) ∧
    (∀ (upF : String → UpFaults) (dlF : String → DlFaults) (mkF : String → Outcome)
        (rel rfile lfile : String) (rest : List (String × BAct)) (lfs rfs : FS)
        (e : PyErr),
      mkF rel = .fail e →
      execBidi upF dlF mkF ((rel, .down rfile lfile) :: rest) lfs rfs
        = ⟨lfs, rfs, [], [], some e⟩) ∧
    (∀ (upF : String → UpFaults) (dlF : String → DlFaults) (mkF : String → Outcome)
        (rel rfile lfile : String) (rest : List (String × BAct)) (lfs rfs : FS)
        (e : PyErr),
      mkF rel = .ok →
      (atomic_download (dlF rel) rfs lfs rfile lfile).raised = some e →
      (execBidi upF dlF mkF ((rel, .down rfile lfile) :: rest) lfs rfs).raised = some e ∧
      (execBidi upF dlF mkF ((rel, .down rfile lfile) :: rest) lfs rfs).performed
        = [(rel, .down rfile lfile)]) ∧
    (∀ (upF : String → UpFaults) (dlF : String → DlFaults) (mkF : String → Outcome)
        (rel rfile lfile : String) (rest : List (String × BAct)) (lfs rfs : FS)
        (e : PyErr),
      (atomic_download (dlF rel) rfs lfs rfile (lfile ++ ".remote")).raised = some e →
      (execBidi upF dlF mkF ((rel, .confl rfile lfile) :: rest) lfs rfs).raised = some e ∧
      (execBidi upF dlF mkF ((rel, .confl rfile lfile) :: rest) lfs rfs).performed
        = [(rel, .confl rfile lfile)]) :=
  ⟨upload_never_raises, sync_push_run_attempts_all, sync_push_run_abort_dirs,
   sync_pull_run_all_processed, sync_pull_run_abort_download,
   sync_pull_run_abort_makedirs, sync_bidirectional_all_safe,
   execBidi_down_mkdirs_abort, execBidi_down_abort, execBidi_confl_abort⟩

/-- Witness for C4 at a concrete clean single-file pull run. -/
theorem c4_per_file_failure_policy_witness :
    pullSkips [] [] (basename "rem/a.txt") = false ∧
    (sync_pull_run (fun _ => ⟨.ok, cleanDl⟩) [("rem/a.txt", ⟨1, 1, 0⟩)] "rem" "loc"
        [] [] [("rem/a.txt", [2])] []).raised = none := by
  refine ⟨by decide, ?_⟩
  have h := (c4_per_file_failure_policy.2.2.2.1 (fun _ => ⟨.ok, cleanDl⟩)
    [("rem/a.txt", ⟨1, 1, 0⟩)] "rem" "loc" [] [] [("rem/a.txt", [2])] ?_ ?_) []
  · exact h.1
  · intro p hp
    rfl
  · intro p hp lfs'
    exact dl_cleanDl_never_raises [("rem/a.txt", [2])] lfs' p
      (pjoin "loc" (relpath p (rstripSlashes "rem")))

/-! ## Claim C5 -/

/-- C5 counterexample: a local scan over a tree whose subdirectory `sub`
cannot be enumerated SUCCEEDS and silently returns a partial mapping —
`os.walk`'s default `onerror=None` ignores the scandir error — omitting
`sub/x.txt` entirely.  The claim says any unenumerable subtree aborts the
whole scan with a scan failure. -/
theorem c5_scan_counterexample :
    list_local "top" true
        (.file "a.txt" true ⟨1, 1, 0⟩ (.dir "sub" false (.file "x.txt" true ⟨1, 1, 0⟩ .nil) .nil))
      = .ok [("a.txt", ⟨1, 1, 0⟩)] := by
  rfl

/-- C5 (amended): a REMOTE scan aborts wholly whenever any reachable
subtree cannot be enumerated (and only then — an unblocked tree scans
successfully), never yielding a partial mapping; a LOCAL scan never
aborts because of an unreadable subtree — `os.walk` silently skips it —
and succeeds whenever every `stat` succeeds, returning whatever the walk
reached. -/
theorem c5_scan_failure_policy :
    (∀ (path : String) (root : REnt), list_remote path false root = .error .permE) ∧
    (∀ (path : String) (root : REnt), anyBlocked root = true →
      list_remote path true root = .error .permE) ∧
    (∀ (path : String) (root : REnt), anyBlocked root = false →
      ∃ l, list_remote path true root = .ok l) ∧
    (∀ (path : String) (rootOk : Bool) (root : LEnt), allStatsOk root = true →
      ∃ l, list_local path rootOk root = .ok l) := by
  refine ⟨fun path root => rfl, ?_, ?_, list_local_ok⟩
  · intro path root h
    simp only [list_remote, eq_self_iff_true, ite_true]
    exact walkRemote_error_of_blocked root path h
  · intro path root h
    simp only [list_remote, eq_self_iff_true, ite_true]
    exact walkRemote_ok_of_not_blocked root path h

/-- Witness for C5's amended theorem: a blocked remote subtree aborts the
whole scan. -/
theorem c5_scan_failure_policy_witness :
    anyBlocked (.dir "b" false (.file "c.txt" ⟨1, 1, 0⟩ .nil) .nil) = true ∧
    list_remote "rem" true (.dir "b" false (.file "c.txt" ⟨1, 1, 0⟩ .nil) .nil)
      = .error .permE :=
  ⟨by decide,
    c5_scan_failure_policy.2.1 "rem" (.dir "b" false (.file "c.txt" ⟨1, 1, 0⟩ .nil) .nil)
      (by decide)⟩

/-! ## Claim C7 -/

/-- C7 counterexample: `list_remote` records a file under the FULL walked
path `rem/a.txt` (line 139 keys the mapping by `rfile`), not under its
path relative to the scanned root as the claim states. -/
theorem c7_remote_key_counterexample :
    list_remote "rem" true (.file "a.txt" ⟨1, 2, 3⟩ .nil) = .ok [("rem/a.txt", ⟨1, 2, 3⟩)] ∧
    ("rem/a.txt" : String) ≠ "a.txt" :=
  ⟨by rfl, by decide⟩

/-- C7 (amended): `list_local` records each file under its normalized
root-relative path with its `{mode, size, mtime}` record, falling back to
the bare basename exactly when the normalized relative path would begin
with `..`, and records no directory entries; `list_remote` records each
file with its record but keyed by the FULL path joined from the scan root
(its callers re-key by `relpath` afterwards), and likewise records no
directory entries. -/
theorem c7_tree_mapping_keys :
    (∀ relroot f, strStartsWith (normpath (pjoin relroot f)) ".." = true →
      localKey relroot f = f) ∧
    (∀ relroot f, strStartsWith (normpath (pjoin relroot f)) ".." = false →
      localKey relroot f = normpath (pjoin relroot f)) ∧
    list_local "top" true
        (.file "a.txt" true ⟨1, 10, 0⟩
          (.dir "b" true (.file "c.txt" true ⟨2, 20, 5⟩ .nil) .nil))
      = .ok [("a.txt", ⟨1, 10, 0⟩), ("b/c.txt", ⟨2, 20, 5⟩)] ∧
    list_remote "rem" true
        (.file "a.txt" ⟨1, 10, 0⟩ (.dir "b" true (.file "c.txt" ⟨2, 20, 5⟩ .nil) .nil))
      = .ok [("rem/a.txt", ⟨1, 10, 0⟩), ("rem/b/c.txt", ⟨2, 20, 5⟩)] := by
  refine ⟨?_, ?_, by rfl, by rfl⟩
  · intro relroot f h
    simp [localKey, h]
  · intro relroot f h
    simp [localKey, h]

/-- Witness for C7's amended theorem: the `..`-escape fallback at a
concrete input. -/
theorem c7_tree_mapping_keys_witness :
    strStartsWith (normpath (pjoin ".." "x.txt")) ".." = true ∧
    localKey ".." "x.txt" = "x.txt" :=
  ⟨by decide, c7_tree_mapping_keys.1 ".." "x.txt" (by decide)⟩

/-! ## Claim C8 -/

/-- C8: for every transfer that stays out of the upload fallback (the
rename-exception handler), every intermediate state of the destination
store shows the destination path holding either its initial ("old")
complete content or the complete new content — never a partial file:
content is written only to the sibling `target + ".tmp"` path and reaches
the destination only through the rename/replace step.  Downloads satisfy
this on every path (they have no fallback). -/
theorem c8_atomic_transfer :
    (∀ (f : UpFaults) (lfs rfs : FS) (lp rp : String) (c : List Nat),
      resolveRemotePath lp rp = rp →
      fsGet lfs lp = some c →
      (atomic_upload f lfs rfs lp rp).enteredRenameHandler = false →
      ∀ s ∈ (atomic_upload f lfs rfs lp rp).trace,
        fsGet s rp = fsGet rfs rp ∨ fsGet s rp = some c) ∧
    (∀ (f : DlFaults) (rfs lfs : FS) (rp lp : String) (rc : List Nat),
      resolveLocalPath f.isDirLocal rp lp = lp →
      fsGet rfs rp = some rc →
      ∀ s ∈ (atomic_download f rfs lfs rp lp).trace,
        fsGet s lp = fsGet lfs lp ∨ fsGet s lp = some rc) :=
  ⟨fun f lfs rfs lp rp c hres hl herh => upload_trace_dest f lfs rfs lp rp c hres hl herh,
   fun f rfs lfs rp lp rc hres hget => download_trace_dest f rfs lfs rp lp rc hres hget⟩

/-- Witness for C8 at a concrete clean upload: the final trace state
holds the new complete content. -/
theorem c8_atomic_transfer_witness :
    resolveRemotePath "l/a" "r/a" = "r/a" ∧
    (fsGet [("r/a", [5])] "r/a" = fsGet [] "r/a" ∨
      fsGet [("r/a", [5])] "r/a" = some [5]) :=
  ⟨by decide,
    c8_atomic_transfer.1 cleanUp [("l/a", [5])] [] "l/a" "r/a" [5]
      (by decide) (by decide) (by decide) [("r/a", [5])] (by decide)⟩

/-- Witness for C6 at a concrete failing-then-retried rename. -/
theorem c6_upload_rename_fallback_witness :
    ({ cleanUp with rename1 := .fail (.genE 0) } : UpFaults).rename2 = .ok ∧
    ((atomic_upload { cleanUp with rename1 := .fail (.genE 0) } [("l/a", [5])]
        [("r/a", [9])] "l/a" "r/a").events
      = [.putTmpCall, .renameCall, .removeTargetCall, .renameRetryCall] ∧
     (atomic_upload { cleanUp with rename1 := .fail (.genE 0) } [("l/a", [5])]
        [("r/a", [9])] "l/a" "r/a").reported = [.uploaded "l/a" "r/a"] ∧
     fsGet (atomic_upload { cleanUp with rename1 := .fail (.genE 0) } [("l/a", [5])]
        [("r/a", [9])] "l/a" "r/a").rfs "r/a" = some [5] ∧
     (atomic_upload { cleanUp with rename1 := .fail (.genE 0) } [("l/a", [5])]
        [("r/a", [9])] "l/a" "r/a").raised = none) :=
  ⟨by decide,
    (c6_upload_rename_fallback { cleanUp with rename1 := .fail (.genE 0) }
      [("l/a", [5])] [("r/a", [9])] "l/a" "r/a" [5] (.genE 0)
      (by decide) (by decide) (by decide) (by decide)).1 (by decide)⟩

/-- Witness for C1 at a concrete two-sided tree with mtimes 10 and 12. -/
theorem c1_bidirectional_mtime_rule_witness :
    pullSkips [] [] (basename "a.txt") = false ∧
    bidiStep [] [] "loc" (rstripSlashes "rem") "a.txt"
        (some ⟨1, 1, 10⟩) (some ⟨1, 1, 12⟩)
      = some (.confl (pjoin (rstripSlashes "rem") "a.txt") (pjoin "loc" "a.txt")) ∧
    fsGet (atomic_download cleanDl [("rem/a.txt", [2])] [("loc/a.txt", [1])]
        (pjoin (rstripSlashes "rem") "a.txt") (pjoin "loc" "a.txt" ++ ".remote")).lfs
      (pjoin "loc" "a.txt") = fsGet [("loc/a.txt", [1])] (pjoin "loc" "a.txt") := by
  refine ⟨by decide, ?_, ?_⟩
  · exact ((c1_bidirectional_mtime_rule [] [] "loc" "rem" "a.txt" ⟨1, 1, 10⟩ ⟨1, 1, 12⟩
      [("a.txt", ⟨1, 1, 10⟩)] [("rem/a.txt", ⟨1, 1, 12⟩)] [("loc/a.txt", [1])]
      [("rem/a.txt", [2])] [2] (by decide) (by decide) (by decide) (by decide)
      (by decide) (by decide)).1 (by decide)).1
  · exact ((c1_bidirectional_mtime_rule [] [] "loc" "rem" "a.txt" ⟨1, 1, 10⟩ ⟨1, 1, 12⟩
      [("a.txt", ⟨1, 1, 10⟩)] [("rem/a.txt", ⟨1, 1, 12⟩)] [("loc/a.txt", [1])]
      [("rem/a.txt", [2])] [2] (by decide) (by decide) (by decide) (by decide)
      (by decide) (by decide)).1 (by decide)).2.2.2.1
